import Mathlib

/-!
# curlent: lifecycle controller, network guard and progress reporter

A shallow embedding of `src/curlent.cpp` and the properties of its
specification that were checked against it.

Conventions of the embedding
* `int` and `std::int64_t` values are `Int`; the one narrowing conversion of
  the program (`static_cast<int>` of a 64-bit quotient) is `wrap32`.
* `float` values are `Flt`: a finite value is the rational it denotes, next
  to the IEEE special values `+inf`, `-inf` and `NaN`.  Every conversion to
  `float` and every `float` product and quotient is rounded to the nearest
  binary32 value, ties to even (`f32`), and overflows to an infinity.  A
  `double` is the rational it denotes; conversions and quotients are rounded
  to binary64 (`f64`).  The sign of zero is not modelled.
* A conversion from floating point to an integer type whose result is not
  representable is undefined behaviour in C++; `std::string(n, c)` with a
  negative `n` throws `std::length_error`; `fs::create_directories`,
  `lt::parse_magnet_uri` and the `lt::torrent_info` constructor throw on
  failure.  Each is a `Fault`: `download_torrent` does not return.
* `std::string` is `String`; `std::string::length` counts bytes, which is
  `String.utf8ByteSize`.
* The outside world (interrupt flag, `operstate` file, engine status,
  terminal size) is an `Env` of oracles indexed by a clock that advances at
  every observation; the effects of the program are a trace of `Event`s.
* The three `while` loops are not bounded in the source; they are run with a
  fuel argument.
-/

namespace Curlent

/-! ## Numbers -/

/-- Nearest integer of a non-negative rational, ties to the even one. -/
def round_half_even (x : ℚ) : Nat :=
  let f := ⌊x⌋.toNat
  let r := x - ⌊x⌋
  if r < 1 / 2 then f else if r > 1 / 2 then f + 1 else if f % 2 = 0 then f else f + 1

/-- Halvings of `n` until it is below 2, at most `fuel` of them. -/
def log2_fuel : Nat → Nat → Nat
  | 0, _ => 0
  | fuel + 1, n => if 2 ≤ n then log2_fuel fuel (n / 2) + 1 else 0

/-- The exponent of the leading bit of `n ≥ 1`. -/
def nat_log2 (n : Nat) : Nat := log2_fuel n n

/-- The binary exponent of a positive rational: `2^e ≤ x < 2^(e+1)`. -/
def ilog2 (x : ℚ) : Int :=
  let e0 : Int := (nat_log2 x.num.natAbs : Int) - (nat_log2 x.den : Int)
  if (2 : ℚ) ^ e0 ≤ x then e0 else e0 - 1

/-- Rounding of a non-negative rational to the nearest value with `prec`
significant bits and least exponent `emin`, ties to even. -/
def round_pos (prec : Nat) (emin : Int) (x : ℚ) : ℚ :=
  let ulp : ℚ := 2 ^ (max (ilog2 x) emin - ((prec : Int) - 1))
  (round_half_even (x / ulp) : ℚ) * ulp

/-- Rounding to nearest, ties to even, in the binary format with `prec`
significant bits and least normal exponent `emin`. -/
def round_fmt (prec : Nat) (emin : Int) (x : ℚ) : ℚ :=
  if x < 0 then -round_pos prec emin (-x) else round_pos prec emin x

/-- A value of the binary format: `m * 2^k` with `|m| < 2^prec` and `k` not
below the exponent of the least subnormal. -/
def representable (prec : Nat) (emin : Int) (x : ℚ) : Prop :=
  ∃ m : Nat, ∃ k : Int, m < 2 ^ prec ∧ emin - ((prec : Int) - 1) ≤ k
    ∧ (x = (m : ℚ) * 2 ^ k ∨ x = -((m : ℚ) * 2 ^ k))

/-- Rounding to binary32 (`float`), exponent range unbounded above. -/
def f32 (x : ℚ) : ℚ := round_fmt 24 (-126) x

/-- Rounding to binary64 (`double`), exponent range unbounded above; no value
the program handles as a `double` reaches the overflow threshold. -/
def f64 (x : ℚ) : ℚ := round_fmt 53 (-1022) x

/-- The largest finite `float`, `(2^24 - 1) * 2^104`. -/
def FLT_MAX : ℚ := 340282346638528859811704183484516925440

/-- Value of a C++ `float`. -/
inductive Flt where
  | fin (q : ℚ)
  | pinf
  | ninf
  | nan
deriving DecidableEq

namespace Flt

/-- The `float` result of an operation whose exact value is `x`: rounded to
nearest, an infinity when the rounded value is beyond `FLT_MAX`. -/
def round (x : ℚ) : Flt :=
  if f32 x > FLT_MAX then pinf else if f32 x < -FLT_MAX then ninf else fin (f32 x)

/-- Conversion of an `int` or `std::int64_t` (`static_cast<float>(n)`, or the
usual arithmetic conversion of an integer operand); these never overflow. -/
def ofInt (n : Int) : Flt := fin (f32 (n : ℚ))

/-- Infinity with the sign of `a`, `NaN` when `a` is zero. -/
def signed_inf (a : ℚ) : Flt :=
  if a > 0 then pinf else if a < 0 then ninf else nan

/-- IEEE multiplication of two `float`s. -/
def mul : Flt → Flt → Flt
  | fin a, fin b => round (a * b)
  | fin a, pinf => signed_inf a
  | fin a, ninf => signed_inf (-a)
  | pinf, fin b => signed_inf b
  | ninf, fin b => signed_inf (-b)
  | pinf, pinf => pinf
  | ninf, ninf => pinf
  | pinf, ninf => ninf
  | ninf, pinf => ninf
  | nan, _ => nan
  | _, nan => nan

/-- IEEE division of two `float`s; a finite value divided by zero is an
infinity, or `NaN` for `0 / 0`. -/
def div : Flt → Flt → Flt
  | fin a, fin b => if b = 0 then signed_inf a else round (a / b)
  | fin _, pinf => fin 0
  | fin _, ninf => fin 0
  | pinf, fin b => if b ≥ 0 then pinf else ninf
  | ninf, fin b => if b ≥ 0 then ninf else pinf
  | pinf, pinf => nan
  | pinf, ninf => nan
  | ninf, pinf => nan
  | ninf, ninf => nan
  | nan, _ => nan
  | _, nan => nan

/-- Comparison `a >= b`; false when an operand is `NaN`. -/
def ge : Flt → Flt → Bool
  | fin a, fin b => decide (a ≥ b)
  | nan, _ => false
  | _, nan => false
  | pinf, _ => true
  | _, ninf => true
  | fin _, pinf => false
  | ninf, fin _ => false
  | ninf, pinf => false

/-- Comparison `a > b`; false when an operand is `NaN`. -/
def gt : Flt → Flt → Bool
  | fin a, fin b => decide (a > b)
  | nan, _ => false
  | _, nan => false
  | pinf, pinf => false
  | pinf, _ => true
  | ninf, _ => false
  | fin _, ninf => true
  | fin _, pinf => false

end Flt

/-- Undefined behaviour or exception met while evaluating an expression. -/
inductive Fault where
  /-- conversion of a floating-point value that the integer type cannot hold -/
  | float_to_int
  /-- `std::length_error` of the `std::string(n, c)` constructor -/
  | length_error
  /-- exception of `fs::create_directories`, `lt::parse_magnet_uri` or the
  `lt::torrent_info` constructor -/
  | library_exception
deriving DecidableEq

deriving instance DecidableEq for Except

/-- Truncation toward zero. -/
def trunc (q : ℚ) : Int := if q ≥ 0 then ⌊q⌋ else ⌈q⌉

def INT_MIN : Int := -2147483648
def INT_MAX : Int := 2147483647
def INT64_MIN : Int := -9223372036854775808
def INT64_MAX : Int := 9223372036854775807

/-- Conversion `static_cast<T>(x)` of a floating-point value to the integer
type with range `lo..hi`: truncates, undefined when not representable. -/
def float_to_int (lo hi : Int) : Flt → Except Fault Int
  | Flt.fin q => if lo ≤ trunc q ∧ trunc q ≤ hi then .ok (trunc q) else .error .float_to_int
  | _ => .error .float_to_int

/-- Conversion `static_cast<int>(x)`. -/
def to_int (x : Flt) : Except Fault Int := float_to_int INT_MIN INT_MAX x

/-- Conversion `static_cast<std::int64_t>(x)`. -/
def to_int64 (x : Flt) : Except Fault Int := float_to_int INT64_MIN INT64_MAX x

/-- Narrowing conversion of a 64-bit integer to `int` (modulo `2^32`). -/
def wrap32 (n : Int) : Int := (n + 2147483648) % 4294967296 - 2147483648

/-! ## Text -/

/-- The string `std::string(n, c)`; a negative `int` count converts to a
`size_t` beyond `max_size()` and the constructor throws. -/
def str_fill (n : Int) (c : Char) : Except Fault String :=
  if n < 0 then .error .length_error else .ok (String.mk (List.replicate n.toNat c))

/-- The text of `oss << std::fixed << std::setprecision(1) << size`. -/
def fixed1 (size : ℚ) : String :=
  let t := round_half_even (|size| * 10)
  (if size < 0 then "-" else "") ++ toString (t / 10) ++ "." ++ toString (t % 10)

/-- The text of `%.1f`. -/
def Flt.fixed1 : Flt → String
  | Flt.fin q => Curlent.fixed1 q
  | Flt.pinf => "inf"
  | Flt.ninf => "-inf"
  | Flt.nan => "nan"

/-! ## Formatting utilities (lines 60-137) -/

/-- The conversion `static_cast<double>(bytes)`. -/
def to_double (bytes : Int) : ℚ := f64 (bytes : ℚ)

/-- The statement `size /= 1024` on a `double`. -/
def div1024 (size : ℚ) : ℚ := f64 (size / 1024)

/-- The loop `while (size >= 1024 && unit_index < 4) { size /= 1024; unit_index++; }`.
The first argument is the headroom `4 - unit_index`. -/
def scale_loop : Nat → ℚ → Int → ℚ × Int
  | 0, size, unit_index => (size, unit_index)
  | n + 1, size, unit_index =>
    if size ≥ 1024 then scale_loop n (div1024 size) (unit_index + 1) else (size, unit_index)

def get_size_unit (bytes : Int) : Int :=
  (scale_loop 4 (to_double bytes) 0).2

/-- The array `units`; an index outside `0..4` reads past the array, which no
caller does (`force_unit` always comes from `get_size_unit`). -/
def unit_name (unit_index : Int) : String :=
  (["B", "KB", "MB", "GB", "TB"].get? unit_index.toNat).getD ""

/-- The scaled value and the unit index `format_size` computes before printing.
The `for` loop divides `min force_unit 4` times. -/
def format_size_scaled (bytes : Int) (force_unit : Int) : ℚ × Int :=
  if force_unit ≥ 0 then
    (div1024^[min force_unit.toNat 4] (to_double bytes), force_unit)
  else
    scale_loop 4 (to_double bytes) 0

/-- The function `format_size(bytes, force_unit)`; the default argument is `-1`. -/
def format_size (bytes : Int) (force_unit : Int) : String :=
  fixed1 (format_size_scaled bytes force_unit).1 ++ " "
    ++ unit_name (format_size_scaled bytes force_unit).2

def ESC_GREEN : String := "\x1b[32m"
def ESC_GRAY : String := "\x1b[90m"
def ESC_RESET : String := "\x1b[0m"

def make_progress_bar (progress : Flt) (width : Int) : Except Fault String := do
  let filled ← to_int (progress.mul (Flt.ofInt width))
  -- no overflow when `0 ≤ filled`; otherwise the next constructor throws
  let empty := width - filled
  let cells ← str_fill filled '#'
  let bar := "[" ++ ESC_GREEN ++ cells
  if filled < width then
    let rest ← str_fill (if empty > 0 then empty - 1 else 0) ' '
    pure (bar ++ "|" ++ ESC_GRAY ++ rest ++ ESC_RESET ++ "]")
  else
    pure (bar ++ ESC_RESET ++ "]")

def format_time (seconds : Int) : String :=
  if seconds < 0 ∨ seconds > 86400 * 365 then "∞"
  else
    let hours := seconds.tdiv 3600
    let minutes := (seconds.tmod 3600).tdiv 60
    let secs := seconds.tmod 60
    if hours > 0 then
      toString hours ++ "h " ++ toString minutes ++ "m " ++ toString secs ++ "s"
    else if minutes > 0 then
      toString minutes ++ "m " ++ toString secs ++ "s"
    else
      toString secs ++ "s"

/-! ## Data model -/

structure Options where
  input : String
  output_dir : String
  interface : String
  seed_ratio : Flt
  quiet : Bool
  no_seed : Bool

/-- The fields of `lt::torrent_status` the program reads (`progress` is a
`float`, the rates are `int`, `total_upload` is a `std::int64_t`). -/
structure TorrentStatus where
  has_metadata : Bool
  is_seeding : Bool
  progress : Flt
  download_rate : Int
  upload_rate : Int
  total_upload : Int
  num_peers : Int

/-- The part of `lt::torrent_info` the program reads. -/
structure TorrentInfo where
  name : String
  total_size : Int
  num_files : Int

/-- The outside world.  The argument of an oracle is the clock value of the
observation. -/
structure Env where
  /-- the flag `interrupted` -/
  interrupted : Nat → Bool
  /-- first word of `/sys/class/net/<iface>/operstate`, `none` when the file
  cannot be opened -/
  operstate : Nat → Option String
  /-- result of `handle.status()` -/
  status : Nat → TorrentStatus
  /-- number of DHT nodes in `ses.session_state()` -/
  dht_nodes : Nat → Nat
  /-- `ws_col` when the `TIOCGWINSZ` ioctl succeeds -/
  ws_col : Nat → Option Nat
  /-- whether `fs::create_directories(opts.output_dir)` succeeds -/
  output_dir_ok : Bool
  /-- whether `lt::parse_magnet_uri(opts.input)` accepts the link -/
  magnet_ok : Bool
  /-- `fs::exists(opts.input)` -/
  input_exists : Bool
  /-- whether the `lt::torrent_info` constructor accepts the file -/
  torrent_ok : Bool
  /-- result of `handle.torrent_file()`, possibly null -/
  torrent_file : Option TorrentInfo

inductive Event where
  /-- call of `interface_up` and its answer -/
  | guard_poll (up : Bool)
  /-- call of `handle.status()` -/
  | status_query
  /-- call of `ses.session_state()` for display -/
  | session_query
  /-- call of `save_session_state` -/
  | save_state
  /-- text written to `std::cout` -/
  | out (text : String)
  /-- text written to `std::cerr` or `stderr` -/
  | err (text : String)
  /-- the 500 ms `sleep_for` -/
  | sleep
deriving DecidableEq

structure St where
  clock : Nat
  trace : List Event
deriving DecidableEq

/-- One observation of the outside world has been made. -/
def St.obs (s : St) : St := { s with clock := s.clock + 1 }

/-- One event is appended to the trace. -/
def St.emit (s : St) (e : Event) : St := { s with trace := s.trace ++ [e] }

/-! ## Leaf functions with I/O (lines 52-58, 139-165) -/

def get_terminal_width (ws_col : Option Nat) : Int :=
  match ws_col with
  | some col => (col : Int)
  | none => 80

/-- The test `input.find("magnet:") == 0`. -/
def is_magnet (input : String) : Bool := "magnet:".toList.isPrefixOf input.toList

def interface_up (operstate : Option String) : Bool :=
  match operstate with
  | none => false
  | some state => state == "up" || state == "unknown"

/-! ## Progress reporter (lines 437-470 and 515-549) -/

/-- The text of `%3d`. -/
def pad3 (n : Int) : String :=
  String.mk (List.replicate (3 - (toString n).length) ' ') ++ toString n

/-- The text of `"\r%3d%% %s %s/%s %s eta %s\033[K"`. -/
def status_line (percent : Int) (bar done_str total_str speed_str eta_str : String) : String :=
  "\r" ++ pad3 percent ++ "% " ++ bar ++ " " ++ done_str ++ "/" ++ total_str ++ " "
    ++ speed_str ++ " eta " ++ eta_str ++ "\x1b[K"

/-- The sum `6 + 2 + a.length() + 1 + b.length() + 1 + speed.length() + 5 + eta.length()`. -/
def fixed_len (done_str total_str speed_str eta_str : String) : Int :=
  6 + 2 + (done_str.utf8ByteSize : Int) + 1 + (total_str.utf8ByteSize : Int) + 1
    + (speed_str.utf8ByteSize : Int) + 5 + (eta_str.utf8ByteSize : Int)

/-- The bar width `term_width - fixed_len - 2` after the two clamping `if`s. -/
def clamp_bar_width (term_width fixed : Int) : Int :=
  let bar_width := term_width - fixed - 2
  let bar_width := if bar_width < 10 then 10 else bar_width
  if bar_width > 50 then 50 else bar_width

/-- The expression `ti ? ti->total_size() : 0` of lines 441 and 496. -/
def total_size_of (ti : Option TorrentInfo) : Int :=
  match ti with
  | some t => t.total_size
  | none => 0

/-- Line 440: `ti ? static_cast<std::int64_t>(ti->total_size() * status.progress) : 0`. -/
def downloaded_of (ti : Option TorrentInfo) (status : TorrentStatus) : Except Fault Int :=
  match ti with
  | some t => to_int64 ((Flt.ofInt t.total_size).mul status.progress)
  | none => pure 0

/-- Lines 444-448: the ETA text of the download loop. -/
def download_eta (downloaded total download_rate : Int) : String :=
  if download_rate > 0 ∧ total > 0 then
    format_time (wrap32 ((total - downloaded).tdiv download_rate))
  else "--:--"

/-- Lines 524-531: the ETA text of the seeding loop. -/
def seeding_eta (uploaded target_upload upload_rate : Int) : String :=
  if upload_rate > 0 then
    let remaining := target_upload - uploaded
    if remaining > 0 then format_time (wrap32 (remaining.tdiv upload_rate)) else "--:--"
  else "--:--"

/-- The values a pass has computed when it reaches the `// Calculate bar width`
comment: `percent`, the progress handed to `make_progress_bar`, and the four
texts. -/
structure LineParts where
  percent : Int
  progress : Flt
  done_str : String
  total_str : String
  speed_str : String
  eta_str : String
deriving DecidableEq

/-- The value of `fixed_len` for these texts. -/
def LineParts.fixed_len (parts : LineParts) : Int :=
  Curlent.fixed_len parts.done_str parts.total_str parts.speed_str parts.eta_str

/-- Lines 457-469, and the same code at lines 537-548: bar width, bar and the
line written to `stderr`. -/
def render_line (parts : LineParts) (term_width : Int) : Except Fault String := do
  let bar_width := clamp_bar_width term_width parts.fixed_len
  let bar ← make_progress_bar parts.progress bar_width
  pure (status_line parts.percent bar parts.done_str parts.total_str parts.speed_str
    parts.eta_str)

/-- Lines 440-455 of the download loop. -/
def download_parts (ti : Option TorrentInfo) (status : TorrentStatus) :
    Except Fault LineParts := do
  let downloaded ← downloaded_of ti status
  let total := total_size_of ti
  let eta_str := download_eta downloaded total status.download_rate
  let percent ← to_int (status.progress.mul (Flt.ofInt 100))
  let size_unit := get_size_unit total
  let dl_str := format_size downloaded size_unit
  let total_str := format_size total size_unit
  let speed_str := format_size status.download_rate (-1) ++ "/s"
  pure { percent := percent, progress := status.progress, done_str := dl_str,
         total_str := total_str, speed_str := speed_str, eta_str := eta_str }

/-- The body of `if (!opts.quiet)` in the download loop (lines 438-469): the
line written to `stderr`. -/
def download_render (ti : Option TorrentInfo) (status : TorrentStatus) (term_width : Int) :
    Except Fault String := do
  let parts ← download_parts ti status
  render_line parts term_width

/-- Lines 533-534: the upload fraction; the division is not guarded. -/
def seeding_progress (uploaded target_upload : Int) : Flt :=
  let progress := (Flt.ofInt uploaded).div (Flt.ofInt target_upload)
  if progress.gt (Flt.fin 1) then Flt.fin 1 else progress

/-- Lines 518-535 of the seeding loop. -/
def seeding_parts (target_upload : Int) (status : TorrentStatus) : Except Fault LineParts := do
  let uploaded := status.total_upload
  let size_unit := get_size_unit target_upload
  let ul_str := format_size uploaded size_unit
  let target_str := format_size target_upload size_unit
  let speed_str := format_size status.upload_rate (-1) ++ "/s"
  let eta_str := seeding_eta uploaded target_upload status.upload_rate
  let progress := seeding_progress uploaded target_upload
  let percent ← to_int (progress.mul (Flt.ofInt 100))
  pure { percent := percent, progress := progress, done_str := ul_str,
         total_str := target_str, speed_str := speed_str, eta_str := eta_str }

/-- The body of `if (!opts.quiet)` in the seeding loop (lines 516-548). -/
def seeding_render (target_upload : Int) (status : TorrentStatus) (term_width : Int) :
    Except Fault String := do
  let parts ← seeding_parts target_upload status
  render_line parts term_width

/-! ## Lifecycle controller (lines 306-566) -/

/-- What one pass through a loop (condition and body) does. -/
inductive Step where
  /-- the body ran to its end -/
  | next (s : St)
  /-- the loop was left, by its condition or by `break` -/
  | exit (s : St)
  /-- a `return` statement of `download_torrent` was executed -/
  | ret (code : Int) (s : St)
  /-- undefined behaviour or an exception -/
  | fault (f : Fault) (s : St)
deriving DecidableEq

/-- Result of running `download_torrent`. -/
inductive Outcome where
  | ret (code : Int) (s : St)
  | fault (f : Fault) (s : St)
  | out_of_fuel (s : St)
deriving DecidableEq

/-- The `while` loop whose condition and body are `tick`, run for at most
`fuel` passes; `Step.next` is the answer when the fuel is used up. -/
def run_loop (tick : St → Step) : Nat → St → Step
  | 0, s => .next s
  | fuel + 1, s =>
    match tick s with
    | .next s1 => run_loop tick fuel s1
    | r => r

/-- The text of `"\n\nKill switch: interface %s is down\n"`. -/
def kill_switch_text (opts : Options) : String :=
  "\n\nKill switch: interface " ++ opts.interface ++ " is down\n"

/-- The `// Kill switch` block of the three loops.  The flag is true when the
block ends in `return 1`; the state is then the one at that `return`. -/
def kill_switch (env : Env) (opts : Options) (s : St) : St × Bool :=
  if opts.interface ≠ "" then
    let up := interface_up (env.operstate s.clock)
    let s := (s.emit (.guard_poll up)).obs
    if !up then
      (((s.emit .save_state).emit (.err (kill_switch_text opts))), true)
    else (s, false)
  else (s, false)

/-- Lines 387-403: one pass of the metadata loop. -/
def metadata_tick (env : Env) (opts : Options) (s : St) : Step :=
  -- `!handle.status().has_metadata && !interrupted`
  let st := env.status s.clock
  let s := (s.emit .status_query).obs
  if st.has_metadata then .exit s
  else
    let intr := env.interrupted s.clock
    let s := s.obs
    if intr then .exit s
    else
      match kill_switch env opts s with
      | (s, true) => .ret 1 s
      | (s, false) =>
        let s :=
          if !opts.quiet && is_magnet opts.input then
            let st := env.status s.clock
            let s := (s.emit .status_query).obs
            let nodes := env.dht_nodes s.clock
            let s := (s.emit .session_query).obs
            s.emit (.err ("\rWaiting for metadata... peers: " ++ toString st.num_peers
              ++ ", DHT nodes: " ++ toString nodes ++ "\x1b[K"))
          else s
        .next (s.emit .sleep)

/-- Lines 423-473: one pass of the download loop. -/
def download_tick (env : Env) (opts : Options) (ti : Option TorrentInfo) (s : St) : Step :=
  let intr := env.interrupted s.clock
  let s := s.obs
  if intr then .exit s
  else
    match kill_switch env opts s with
    | (s, true) => .ret 1 s
    | (s, false) =>
      let status := env.status s.clock
      let s := (s.emit .status_query).obs
      if status.is_seeding then .exit s
      else if !opts.quiet then
        let term_width := get_terminal_width (env.ws_col s.clock)
        let s := s.obs
        match download_render ti status term_width with
        | .error f => .fault f s
        | .ok line => .next ((s.emit (.err line)).emit .sleep)
      else .next (s.emit .sleep)

/-- Lines 499-552: one pass of the seeding loop. -/
def seeding_tick (env : Env) (opts : Options) (total_size target_upload : Int) (s : St) : Step :=
  let intr := env.interrupted s.clock
  let s := s.obs
  if intr then .exit s
  else
    match kill_switch env opts s with
    | (s, true) => .ret 1 s
    | (s, false) =>
      let status := env.status s.clock
      let s := (s.emit .status_query).obs
      let uploaded := status.total_upload
      let ratio :=
        if total_size > 0 then (Flt.ofInt uploaded).div (Flt.ofInt total_size) else Flt.fin 0
      if ratio.ge opts.seed_ratio then .exit s
      else if !opts.quiet then
        let term_width := get_terminal_width (env.ws_col s.clock)
        let s := s.obs
        match seeding_render target_upload status term_width with
        | .error f => .fault f s
        | .ok line => .next ((s.emit (.err line)).emit .sleep)
      else .next (s.emit .sleep)

/-- Lines 416-420: name, size and number of files on `std::cout`. -/
def announce_info (opts : Options) (ti : Option TorrentInfo) (s : St) : St :=
  match ti with
  | some t =>
    if !opts.quiet then
      ((s.emit (.out ("Name: " ++ t.name ++ "\n"))).emit
        (.out ("Size: " ++ format_size t.total_size (-1) ++ "\n"))).emit
        (.out ("Files: " ++ toString t.num_files ++ "\n\n"))
    else s
  | none => s

/-- The path `fs::path(dir) / name` for a relative `name`. -/
def path_join (dir name : String) : String :=
  if dir = "" then name
  else if dir.toList.getLast? = some '/' then dir ++ name
  else dir ++ "/" ++ name

/-- Lines 481-484: the completion message. -/
def announce_complete (opts : Options) (ti : Option TorrentInfo) (s : St) : St :=
  match ti with
  | some t =>
    if !opts.quiet then
      (s.emit (.err "\n\nDownload complete!\x07\n")).emit
        (.err ("Saved to: " ++ path_join opts.output_dir t.name ++ "\n"))
    else s
  | none => s

/-- Lines 554-565: after the seeding loop. -/
def after_seeding (env : Env) (opts : Options) (s : St) : Outcome :=
  let intr := env.interrupted s.clock
  let s := s.obs
  if intr then
    .ret 130 ((s.emit .save_state).emit (.err "\n\nSeeding interrupted\n"))
  else
    let s := if !opts.quiet then s.emit (.err "\n\nSeeding complete!\x07\n") else s
    .ret 0 (s.emit .save_state)

/-- Lines 491-565: the seeding phase. -/
def seeding_phase (fuel : Nat) (env : Env) (opts : Options) (ti : Option TorrentInfo)
    (s : St) : Outcome :=
  let s :=
    if !opts.quiet then
      s.emit (.err ("\nSeeding to ratio " ++ opts.seed_ratio.fixed1 ++ "...\n\n"))
    else s
  let total_size := total_size_of ti
  match to_int64 ((Flt.ofInt total_size).mul opts.seed_ratio) with
  | .error f => .fault f s
  | .ok target_upload =>
    match run_loop (seeding_tick env opts total_size target_upload) fuel s with
    | .next s => .out_of_fuel s
    | .ret code s => .ret code s
    | .fault f s => .fault f s
    | .exit s => after_seeding env opts s

/-- Lines 475-565: after the download loop. -/
def after_download (fuel : Nat) (env : Env) (opts : Options) (ti : Option TorrentInfo)
    (s : St) : Outcome :=
  let intr := env.interrupted s.clock
  let s := s.obs
  if intr then
    .ret 130 ((s.emit .save_state).emit (.err "\n\nDownload interrupted\n"))
  else
    let s := announce_complete opts ti s
    if opts.no_seed then .ret 0 (s.emit .save_state)
    else seeding_phase fuel env opts ti s

/-- Lines 405-565: after the metadata loop. -/
def after_metadata (fuel : Nat) (env : Env) (opts : Options) (s : St) : Outcome :=
  let s := if !opts.quiet && is_magnet opts.input then s.emit (.err "\n") else s
  let intr := env.interrupted s.clock
  let s := s.obs
  if intr then
    .ret 130 ((s.emit .save_state).emit (.out "\nInterrupted\n"))
  else
    let ti := env.torrent_file
    let s := announce_info opts ti s
    match run_loop (download_tick env opts ti) fuel s with
    | .next s => .out_of_fuel s
    | .ret code s => .ret code s
    | .fault f s => .fault f s
    | .exit s => after_download fuel env opts ti s

/-- Lines 357-382: the output directory is created and the torrent parameters
are built.  The result is the state and `none` to go on, or what ends the run:
the exit code of a `return`, or the fault of an exception. -/
def add_torrent (env : Env) (opts : Options) (s : St) : St × Option (Except Fault Int) :=
  if !env.output_dir_ok then (s, some (.error .library_exception))
  else if is_magnet opts.input then
    let s := if !opts.quiet then s.emit (.out "Adding magnet link...\n") else s
    if !env.magnet_ok then (s, some (.error .library_exception)) else (s, none)
  else if !env.input_exists then
    (s.emit (.err ("Error: file not found: " ++ opts.input ++ "\n")), some (.ok 1))
  else
    let s :=
      if !opts.quiet then s.emit (.out ("Loading torrent file: " ++ opts.input ++ "\n")) else s
    if !env.torrent_ok then (s, some (.error .library_exception)) else (s, none)

/-- Lines 357-403: the torrent is added and the metadata loop runs. -/
def add_and_wait (fuel : Nat) (env : Env) (opts : Options) (s : St) : Outcome :=
  match add_torrent env opts s with
  | (s, some (.ok code)) => .ret code s
  | (s, some (.error f)) => .fault f s
  | (s, none) =>
    match run_loop (metadata_tick env opts) fuel s with
    | .next s => .out_of_fuel s
    | .ret code s => .ret code s
    | .fault f s => .fault f s
    | .exit s => after_metadata fuel env opts s

/-- The function `download_torrent`.  Each of its loops runs for at most
`fuel` passes.  The session set-up of lines 307-355 leaves no event but the
start-up guard poll. -/
def download_torrent (fuel : Nat) (env : Env) (opts : Options) : Outcome :=
  let s : St := { clock := 0, trace := [] }
  -- lines 324-332
  if opts.interface ≠ "" then
    let up := interface_up (env.operstate s.clock)
    let s := (s.emit (.guard_poll up)).obs
    if !up then
      .ret 1 (s.emit (.err ("Error: interface " ++ opts.interface ++ " is not up\n")))
    else add_and_wait fuel env opts s
  else add_and_wait fuel env opts s

/-! ## Measuring traces and lines -/

/-- Number of calls of `save_session_state` in a trace. -/
def saves (trace : List Event) : Nat := trace.count Event.save_state

/-- Whether the first engine status query of a trace comes after a guard poll
(true also when the trace has no status query). -/
def guard_precedes_status : List Event → Bool
  | [] => true
  | .guard_poll _ :: _ => true
  | .status_query :: _ => false
  | _ :: rest => guard_precedes_status rest

/-- The state a pass of a loop ends in. -/
def Step.state : Step → St
  | .next s => s
  | .exit s => s
  | .ret _ s => s
  | .fault _ s => s

/-- The events a pass of a loop that started in `s` added to the trace. -/
def tick_events (s : St) (r : Step) : List Event := r.state.trace.drop s.trace.length

/-- Bookkeeping of saves for one pass of a loop that started with `k` saves. -/
def Step.saved (k : Nat) : Step → Prop
  | .next s => saves s.trace = k
  | .exit s => saves s.trace = k
  | .ret code s => code = 1 ∧ saves s.trace = k + 1
  | .fault _ _ => True

/-- Bookkeeping of saves for the rest of the run, entered with `k` saves. -/
def Outcome.saved (k : Nat) : Outcome → Prop
  | .ret code s => (code = 0 ∨ code = 1 ∨ code = 130) ∧ saves s.trace = k + 1
  | .fault _ _ => True
  | .out_of_fuel _ => True

/-- The two start-up errors of `download_torrent`: the configured interface is
down when the function starts, or the input is a local descriptor that does
not exist. -/
def startup_error (env : Env) (opts : Options) : Prop :=
  (opts.interface ≠ "" ∧ interface_up (env.operstate 0) = false)
    ∨ (is_magnet opts.input = false ∧ env.input_exists = false)

instance (env : Env) (opts : Options) : Decidable (startup_error env opts) := by
  unfold startup_error
  infer_instance

/-- The state a run ends in. -/
def Outcome.state : Outcome → St
  | .ret _ s => s
  | .fault _ s => s
  | .out_of_fuel s => s

/-- The fault a run stopped with. -/
def Outcome.fault_of : Outcome → Option Fault
  | .ret _ _ => none
  | .fault f _ => some f
  | .out_of_fuel _ => none

/-- The exit code of a run that returned. -/
def Outcome.code : Outcome → Option Int
  | .ret code _ => some code
  | .fault _ _ => none
  | .out_of_fuel _ => none

/-- The messages of lines 481-484. -/
def complete_events (opts : Options) (ti : Option TorrentInfo) : List Event :=
  (announce_complete opts ti ⟨0, []⟩).trace

/-- The guard poll of a pass, when an interface is configured. -/
def guard_events (opts : Options) : List Event :=
  if opts.interface = "" then [] else [.guard_poll true]

/-- The text between the brackets is `filled` cells, then, unless the bar is
full, the boundary glyph and `width - filled - 1` blanks. -/
def bar_text (filled width : Int) : String :=
  if filled < width then
    "[" ++ ESC_GREEN ++ String.mk (List.replicate filled.toNat '#') ++ "|" ++ ESC_GRAY
      ++ String.mk (List.replicate (width - filled - 1).toNat ' ') ++ ESC_RESET ++ "]"
  else
    "[" ++ ESC_GREEN ++ String.mk (List.replicate filled.toNat '#') ++ ESC_RESET ++ "]"

/-- Columns a text takes on the terminal, read from a position that is inside
an escape sequence or not: a carriage return takes none, an escape sequence
(`ESC`, then everything up to and including the next letter) takes none, every
other character takes one. -/
def visible_from : Bool → List Char → Nat
  | _, [] => 0
  | true, c :: cs => visible_from (!c.isAlpha) cs
  | false, c :: cs =>
    if c = '\x1b' then visible_from true cs
    else if c = '\r' then visible_from false cs
    else 1 + visible_from false cs

/-- Columns a text takes on the terminal. -/
def visible_width (s : String) : Nat := visible_from false s.data

/-- Number of occurrences of a character in a text. -/
def count_char (c : Char) (s : String) : Nat := s.data.count c

/-- A text without escape character and without carriage return. -/
def plain (l : List Char) : Prop := ∀ c ∈ l, c ≠ '\x1b' ∧ c ≠ '\r'

/-- A text of one-byte characters without escape character and carriage
return: it takes as many columns as it has bytes. -/
def ascii_plain (l : List Char) : Prop := ∀ c ∈ l, c ≠ '\x1b' ∧ c ≠ '\r' ∧ c.utf8Size = 1

instance (l : List Char) : Decidable (ascii_plain l) := by
  unfold ascii_plain
  infer_instance

instance (l : List Char) : Decidable (plain l) := by
  unfold plain
  infer_instance

/-- Columns of the text of a status line outside the bar: `fixed_len` counts the
bytes of the ETA text, the terminal shows its characters. -/
def LineParts.fixed_cols (parts : LineParts) : Int :=
  parts.fixed_len - ((parts.eta_str.utf8ByteSize : Int) - (parts.eta_str.length : Int))

/-- What the two loops hand to the shared rendering code: a progress `q` in
`[0,1]`, a percentage in `0..100`, one-byte texts for the sizes and the speed,
and an ETA text without control characters. -/
def LineParts.wf (parts : LineParts) (q : ℚ) : Prop :=
  parts.progress = Flt.fin q ∧ 0 ≤ q ∧ q ≤ 1 ∧ 0 ≤ parts.percent ∧ parts.percent ≤ 100
    ∧ ascii_plain parts.done_str.data ∧ ascii_plain parts.total_str.data
    ∧ ascii_plain parts.speed_str.data ∧ plain parts.eta_str.data

/-! ## Sample inputs -/

/-- Status of a torrent that is complete and seeding, nothing uploaded. -/
def status_seeding : TorrentStatus :=
  { has_metadata := true, is_seeding := true, progress := Flt.fin 1, download_rate := 0,
    upload_rate := 0, total_upload := 0, num_peers := 3 }

/-- Status of a torrent whose metadata has not arrived. -/
def status_waiting : TorrentStatus :=
  { has_metadata := false, is_seeding := false, progress := Flt.fin 0, download_rate := 0,
    upload_rate := 0, total_upload := 0, num_peers := 0 }

/-- A one-mebibyte torrent. -/
def sample_info : TorrentInfo := { name := "sample.iso", total_size := 1048576, num_files := 1 }

/-- A torrent without content. -/
def empty_info : TorrentInfo := { name := "empty", total_size := 0, num_files := 1 }

/-- A one-gibibyte torrent. -/
def gib_info : TorrentInfo := { name := "big.iso", total_size := 1073741824, num_files := 1 }

/-- Status of a torrent half downloaded, at 1 MiB/s. -/
def status_half : TorrentStatus :=
  { has_metadata := true, is_seeding := false, progress := Flt.fin (1 / 2),
    download_rate := 1048576, upload_rate := 0, total_upload := 0, num_peers := 3 }

/-- Status of a seeding torrent that has uploaded 5000 bytes, upload stalled. -/
def status_uploaded_5000 : TorrentStatus := { status_seeding with total_upload := 5000 }

/-- Status of a seeding torrent that has uploaded 1 MiB, at 1 KiB/s. -/
def status_uploading : TorrentStatus :=
  { status_seeding with total_upload := 1048576, upload_rate := 1024 }

/-- A world in which nothing goes wrong: no interrupt, every interface up, the
torrent complete from the first status query on, an 80-column terminal. -/
def env_calm : Env :=
  { interrupted := fun _ => false, operstate := fun _ => some "up",
    status := fun _ => status_seeding, dht_nodes := fun _ => 12, ws_col := fun _ => some 80,
    output_dir_ok := true, magnet_ok := true, input_exists := true, torrent_ok := true,
    torrent_file := some sample_info }

/-- The calm world, with the interface missing (its `operstate` unreadable). -/
def env_iface_down : Env := { env_calm with operstate := fun _ => none }

/-- The calm world, with the metadata never arriving. -/
def env_no_metadata : Env := { env_calm with status := fun _ => status_waiting }

/-- The calm world, with a torrent without content. -/
def env_empty : Env := { env_calm with torrent_file := some empty_info }

/-- The calm world, with a torrent without content and 5000 bytes uploaded. -/
def env_empty_uploaded : Env :=
  { env_calm with torrent_file := some empty_info, status := fun _ => status_uploaded_5000 }

/-- The calm world, with the local descriptor file missing. -/
def env_no_file : Env := { env_calm with input_exists := false }

/-- Options of `curlent <magnet> -n`. -/
def opts_magnet_no_seed : Options :=
  { input := "magnet:?xt=urn:btih:c12fe1c06bba254a9dc9f519b335aa7c1367a88a", output_dir := ".",
    interface := "", seed_ratio := Flt.fin 2, quiet := false, no_seed := true }

/-- Options of `curlent <magnet> -i tun0`. -/
def opts_magnet_tun0 : Options :=
  { opts_magnet_no_seed with interface := "tun0", no_seed := false }

/-- Options of `curlent <magnet> -r 0`. -/
def opts_magnet_ratio0 : Options :=
  { opts_magnet_no_seed with seed_ratio := Flt.fin 0, no_seed := false }

/-- Options of `curlent <magnet>`: seed to the default ratio 2.0. -/
def opts_magnet_seed : Options := { opts_magnet_no_seed with no_seed := false }

/-- Options of `curlent missing.torrent`. -/
def opts_file : Options := { opts_magnet_no_seed with input := "missing.torrent" }

/-- A torrent one byte short of 1 GiB. -/
def short_gib_info : TorrentInfo :=
  { name := "short.iso", total_size := 1073741823, num_files := 1 }

/-- The status of a finished download: progress `1.0f`. -/
def status_done : TorrentStatus := { status_half with progress := Flt.fin 1 }

/-! ## Lemmas on rounding -/

theorem log2_fuel_spec (fuel n : Nat) (h1 : 1 ≤ n) (hf : n ≤ fuel) :
    2 ^ log2_fuel fuel n ≤ n ∧ n < 2 ^ (log2_fuel fuel n + 1) := by
  induction fuel generalizing n with
  | zero => omega
  | succ fuel ih =>
    unfold log2_fuel
    by_cases h2 : 2 ≤ n
    · simp only [h2, if_true]
      obtain ⟨ha, hb⟩ := ih (n / 2) (by omega) (by omega)
      rw [pow_succ] at hb
      constructor
      · rw [pow_succ]; omega
      · rw [pow_succ, pow_succ]; omega
    · simp only [h2, if_false]
      omega

theorem nat_log2_spec (n : Nat) (h1 : 1 ≤ n) :
    2 ^ nat_log2 n ≤ n ∧ n < 2 ^ (nat_log2 n + 1) :=
  log2_fuel_spec n n h1 (le_refl _)

theorem ilog2_aux (n d : Nat) (hn1 : 1 ≤ n) (hd1 : 1 ≤ d) (e : Int)
    (he : e = if (2 : ℚ) ^ ((nat_log2 n : Int) - (nat_log2 d : Int)) ≤ (n : ℚ) / (d : ℚ)
      then (nat_log2 n : Int) - (nat_log2 d : Int)
      else (nat_log2 n : Int) - (nat_log2 d : Int) - 1) :
    (2 : ℚ) ^ e ≤ (n : ℚ) / (d : ℚ) ∧ (n : ℚ) / (d : ℚ) < (2 : ℚ) ^ (e + 1) := by
  obtain ⟨a1, a2⟩ := nat_log2_spec n hn1
  obtain ⟨b1, b2⟩ := nat_log2_spec d hd1
  have hdq : (0 : ℚ) < d := by exact_mod_cast hd1
  have a1q : (2 : ℚ) ^ nat_log2 n ≤ n := by exact_mod_cast a1
  have a2q : (n : ℚ) < 2 ^ nat_log2 n * 2 := by rw [← pow_succ]; exact_mod_cast a2
  have b1q : (2 : ℚ) ^ nat_log2 d ≤ d := by exact_mod_cast b1
  have b2q : (d : ℚ) < 2 ^ nat_log2 d * 2 := by rw [← pow_succ]; exact_mod_cast b2
  have hpa : (0 : ℚ) < 2 ^ nat_log2 n := by positivity
  have hpb : (0 : ℚ) < 2 ^ nat_log2 d := by positivity
  have he0 : (2 : ℚ) ^ ((nat_log2 n : Int) - (nat_log2 d : Int))
      = 2 ^ nat_log2 n / 2 ^ nat_log2 d :=
    zpow_natCast_sub_natCast₀ (by norm_num) _ _
  generalize (2 : ℚ) ^ nat_log2 n = A at *
  generalize (2 : ℚ) ^ nat_log2 d = B at *
  by_cases hc : (2 : ℚ) ^ ((nat_log2 n : Int) - (nat_log2 d : Int)) ≤ (n : ℚ) / (d : ℚ)
  · rw [if_pos hc] at he
    subst he
    refine ⟨hc, ?_⟩
    rw [zpow_add_one₀ (by norm_num), he0, div_mul_eq_mul_div, div_lt_div_iff₀ hdq hpb]
    nlinarith
  · rw [if_neg hc] at he
    subst he
    have hlt := lt_of_not_ge hc
    constructor
    · have h2 : (2 : ℚ) ^ ((nat_log2 n : Int) - (nat_log2 d : Int) - 1) = A / B / 2 := by
        have : (2 : ℚ) ^ ((nat_log2 n : Int) - (nat_log2 d : Int) - 1) * 2 = A / B := by
          rw [← zpow_add_one₀ (by norm_num), sub_add_cancel, he0]
        rw [← this]; ring
      rw [h2, div_div, div_le_div_iff₀ (by positivity) hdq]
      nlinarith
    · rw [sub_add_cancel]
      exact hlt

theorem ilog2_spec (x : ℚ) (hx : 0 < x) :
    (2 : ℚ) ^ ilog2 x ≤ x ∧ x < (2 : ℚ) ^ (ilog2 x + 1) := by
  have hnum : 0 < x.num := Rat.num_pos.mpr hx
  have hden : 1 ≤ x.den := x.den_pos
  obtain ⟨n, hn⟩ := Int.eq_ofNat_of_zero_le (le_of_lt hnum)
  have hn1 : 1 ≤ n := by omega
  have hna : x.num.natAbs = n := by rw [hn]; rfl
  have hxe : (n : ℚ) / (x.den : ℚ) = x := by
    have := Rat.num_div_den x
    rw [hn] at this
    push_cast at this
    exact this
  have key := ilog2_aux n x.den hn1 hden (ilog2 x) (by
    unfold ilog2
    simp only [hna, hxe])
  rw [hxe] at key
  exact key

theorem ilog2_unique (x : ℚ) (e : Int) (h1 : (2 : ℚ) ^ e ≤ x) (h2 : x < (2 : ℚ) ^ (e + 1)) :
    ilog2 x = e := by
  have hx : 0 < x := lt_of_lt_of_le (zpow_pos (by norm_num) e) h1
  obtain ⟨s1, s2⟩ := ilog2_spec x hx
  have a : e < ilog2 x + 1 :=
    (zpow_lt_zpow_iff_right₀ (by norm_num : (1 : ℚ) < 2)).mp (lt_of_le_of_lt h1 s2)
  have b : ilog2 x < e + 1 :=
    (zpow_lt_zpow_iff_right₀ (by norm_num : (1 : ℚ) < 2)).mp (lt_of_le_of_lt s1 h2)
  omega

theorem ilog2_mono (x y : ℚ) (hx : 0 < x) (hxy : x ≤ y) : ilog2 x ≤ ilog2 y := by
  obtain ⟨s1, _⟩ := ilog2_spec x hx
  obtain ⟨_, t2⟩ := ilog2_spec y (lt_of_lt_of_le hx hxy)
  have : ilog2 x < ilog2 y + 1 :=
    (zpow_lt_zpow_iff_right₀ (by norm_num : (1 : ℚ) < 2)).mp
      (lt_of_le_of_lt s1 (lt_of_le_of_lt hxy t2))
  omega

/-- The three cases of `round_half_even`, over the integers. -/
theorem round_half_even_cases (x : ℚ) (hx : 0 ≤ x) :
    ((round_half_even x : Int) = ⌊x⌋ ∧ x - ⌊x⌋ ≤ 1 / 2)
      ∨ ((round_half_even x : Int) = ⌊x⌋ + 1 ∧ 1 / 2 ≤ x - ⌊x⌋) := by
  have hf : (0 : Int) ≤ ⌊x⌋ := Int.floor_nonneg.mpr hx
  have ht : ((⌊x⌋.toNat : Nat) : Int) = ⌊x⌋ := Int.toNat_of_nonneg hf
  unfold round_half_even
  simp only
  split
  · left; exact ⟨ht, by linarith⟩
  · split
    · right; refine ⟨by push_cast; rw [ht], by linarith⟩
    · have heq : x - ⌊x⌋ = 1 / 2 := by linarith
      split
      · left; exact ⟨ht, by linarith⟩
      · right; refine ⟨by push_cast; rw [ht], by linarith⟩

theorem round_half_even_nat (n : Nat) : round_half_even (n : ℚ) = n := by
  unfold round_half_even
  simp

theorem round_half_even_mono (x y : ℚ) (hx : 0 ≤ x) (hxy : x ≤ y) :
    round_half_even x ≤ round_half_even y := by
  have hy : 0 ≤ y := le_trans hx hxy
  have hfl : ⌊x⌋ ≤ ⌊y⌋ := Int.floor_mono hxy
  have goal : (round_half_even x : Int) ≤ round_half_even y := by
    by_cases hlt : ⌊x⌋ < ⌊y⌋
    · rcases round_half_even_cases x hx with ⟨a, _⟩ | ⟨a, _⟩ <;>
        rcases round_half_even_cases y hy with ⟨b, _⟩ | ⟨b, _⟩ <;> omega
    · have heq : ⌊x⌋ = ⌊y⌋ := by omega
      have hf : (0 : Int) ≤ ⌊x⌋ := Int.floor_nonneg.mpr hx
      have hr : x - ⌊x⌋ ≤ y - ⌊x⌋ := by linarith
      unfold round_half_even
      simp only [← heq]
      by_cases h1 : x - ⌊x⌋ < 1 / 2
      · simp only [h1, if_true]
        split
        · exact le_refl _
        · split
          · push_cast; omega
          · split
            · exact le_refl _
            · push_cast; omega
      · simp only [h1, if_false]
        by_cases h2 : x - ⌊x⌋ > 1 / 2
        · have h3 : ¬ (y - ⌊x⌋ < 1 / 2) := by linarith
          have h4 : y - ⌊x⌋ > 1 / 2 := by linarith
          simp only [h2, h3, h4, if_true, if_false]
          exact le_refl _
        · have h3 : ¬ (y - ⌊x⌋ < 1 / 2) := by linarith
          simp only [h2, h3, if_false]
          by_cases h4 : y - ⌊x⌋ > 1 / 2
          · simp only [h4, if_true]
            split
            · push_cast; omega
            · exact le_refl _
          · simp only [h4, if_false]
            exact le_refl _
  exact_mod_cast goal

theorem two_zpow_pos (e : Int) : (0 : ℚ) < 2 ^ e := zpow_pos (by norm_num) e

theorem two_zpow_le (a b : Int) (h : a ≤ b) : (2 : ℚ) ^ a ≤ 2 ^ b :=
  zpow_le_zpow_right₀ (by norm_num) h

theorem two_zpow_sub (a b : Int) : (2 : ℚ) ^ a / 2 ^ b = 2 ^ (a - b) := by
  rw [zpow_sub₀ (by norm_num)]

theorem two_zpow_nat (n : Nat) : (2 : ℚ) ^ (n : Int) = ((2 ^ n : Nat) : ℚ) := by
  rw [zpow_natCast]; push_cast; rfl

theorem round_pos_zero (prec : Nat) (emin : Int) : round_pos prec emin 0 = 0 := by
  unfold round_pos
  simp [round_half_even]

theorem round_pos_nonneg (prec : Nat) (emin : Int) (x : ℚ) : 0 ≤ round_pos prec emin x := by
  unfold round_pos
  exact mul_nonneg (Nat.cast_nonneg _) (le_of_lt (two_zpow_pos _))

theorem round_pos_le_pow (prec : Nat) (emin : Int) (x : ℚ) (hx : 0 < x) :
    round_pos prec emin x ≤ 2 ^ (max (ilog2 x) emin + 1) := by
  obtain ⟨_, s2⟩ := ilog2_spec x hx
  have hup : x < 2 ^ (max (ilog2 x) emin + 1) :=
    lt_of_lt_of_le s2 (two_zpow_le _ _ (by have := le_max_left (ilog2 x) emin; omega))
  unfold round_pos
  simp only
  generalize max (ilog2 x) emin = E at *
  have hu := two_zpow_pos (E - ((prec : Int) - 1))
  have hq : x / 2 ^ (E - ((prec : Int) - 1)) ≤ ((2 ^ prec : Nat) : ℚ) := by
    rw [div_le_iff₀ hu, ← two_zpow_nat, ← zpow_add₀ (by norm_num)]
    have : (prec : Int) + (E - ((prec : Int) - 1)) = E + 1 := by ring
    rw [this]
    exact le_of_lt hup
  have hr := round_half_even_mono _ _ (div_nonneg (le_of_lt hx) (le_of_lt hu)) hq
  rw [round_half_even_nat] at hr
  have hrq : (round_half_even (x / 2 ^ (E - ((prec : Int) - 1))) : ℚ) ≤ ((2 ^ prec : Nat) : ℚ) := by
    exact_mod_cast hr
  calc (round_half_even (x / 2 ^ (E - ((prec : Int) - 1))) : ℚ) * 2 ^ (E - ((prec : Int) - 1))
      ≤ ((2 ^ prec : Nat) : ℚ) * 2 ^ (E - ((prec : Int) - 1)) :=
        mul_le_mul_of_nonneg_right hrq (le_of_lt hu)
    _ = 2 ^ (E + 1) := by
        rw [← two_zpow_nat, ← zpow_add₀ (by norm_num)]
        congr 1; ring

theorem round_pos_ge_pow (prec : Nat) (emin : Int) (x : ℚ) (hp : 1 ≤ prec) (hx : 0 < x)
    (hn : emin ≤ ilog2 x) : (2 : ℚ) ^ ilog2 x ≤ round_pos prec emin x := by
  obtain ⟨s1, _⟩ := ilog2_spec x hx
  unfold round_pos
  simp only [max_eq_left hn]
  generalize ilog2 x = E at *
  have hu := two_zpow_pos (E - ((prec : Int) - 1))
  have hpc : ((prec - 1 : Nat) : Int) = (prec : Int) - 1 := by omega
  have hq : ((2 ^ (prec - 1) : Nat) : ℚ) ≤ x / 2 ^ (E - ((prec : Int) - 1)) := by
    rw [le_div_iff₀ hu, ← two_zpow_nat, ← zpow_add₀ (by norm_num), hpc]
    have : (prec : Int) - 1 + (E - ((prec : Int) - 1)) = E := by ring
    rw [this]
    exact s1
  have hr := round_half_even_mono _ _ (Nat.cast_nonneg _) hq
  rw [round_half_even_nat] at hr
  have hrq : ((2 ^ (prec - 1) : Nat) : ℚ)
      ≤ (round_half_even (x / 2 ^ (E - ((prec : Int) - 1))) : ℚ) := by
    exact_mod_cast hr
  calc (2 : ℚ) ^ E = ((2 ^ (prec - 1) : Nat) : ℚ) * 2 ^ (E - ((prec : Int) - 1)) := by
        rw [← two_zpow_nat, ← zpow_add₀ (by norm_num), hpc]
        congr 1; ring
    _ ≤ _ := mul_le_mul_of_nonneg_right hrq (le_of_lt hu)

theorem round_pos_mono (prec : Nat) (emin : Int) (x y : ℚ) (hp : 1 ≤ prec) (hx : 0 ≤ x)
    (hxy : x ≤ y) : round_pos prec emin x ≤ round_pos prec emin y := by
  rcases eq_or_lt_of_le hx with h0 | hpos
  · rw [← h0, round_pos_zero]
    exact round_pos_nonneg _ _ _
  · have hy : 0 < y := lt_of_lt_of_le hpos hxy
    have hE : max (ilog2 x) emin ≤ max (ilog2 y) emin :=
      max_le_max (ilog2_mono x y hpos hxy) (le_refl _)
    rcases eq_or_lt_of_le hE with heq | hlt
    · unfold round_pos
      simp only [heq]
      have hu := two_zpow_pos (max (ilog2 y) emin - ((prec : Int) - 1))
      have hr := round_half_even_mono _ _ (div_nonneg hx (le_of_lt hu))
        (div_le_div_of_nonneg_right hxy (le_of_lt hu))
      exact mul_le_mul_of_nonneg_right (by exact_mod_cast hr) (le_of_lt hu)
    · have hyn : emin < ilog2 y := by
        by_contra hc
        rw [max_eq_right (not_lt.mp hc)] at hlt
        exact absurd (le_max_right (ilog2 x) emin) (not_le.mpr hlt)
      rw [max_eq_left (le_of_lt hyn)] at hlt
      calc round_pos prec emin x ≤ 2 ^ (max (ilog2 x) emin + 1) := round_pos_le_pow _ _ _ hpos
        _ ≤ 2 ^ ilog2 y := two_zpow_le _ _ (by omega)
        _ ≤ round_pos prec emin y := round_pos_ge_pow _ _ _ hp hy (le_of_lt hyn)

theorem round_pos_exact (prec : Nat) (emin : Int) (m : Nat) (k : Int) (hm : m < 2 ^ prec)
    (hk : emin - ((prec : Int) - 1) ≤ k) :
    round_pos prec emin ((m : ℚ) * 2 ^ k) = (m : ℚ) * 2 ^ k := by
  rcases Nat.eq_zero_or_pos m with h0 | hpos
  · subst h0
    simp [round_pos_zero]
  · have hmq : (0 : ℚ) < m := by exact_mod_cast hpos
    have hx : (0 : ℚ) < (m : ℚ) * 2 ^ k := mul_pos hmq (two_zpow_pos k)
    obtain ⟨s1, _⟩ := ilog2_spec _ hx
    have hlt : (m : ℚ) * 2 ^ k < 2 ^ ((prec : Int) + k) := by
      rw [zpow_add₀ (by norm_num), two_zpow_nat]
      exact mul_lt_mul_of_pos_right (by exact_mod_cast hm) (two_zpow_pos k)
    have hil : ilog2 ((m : ℚ) * 2 ^ k) < (prec : Int) + k :=
      (zpow_lt_zpow_iff_right₀ (by norm_num : (1 : ℚ) < 2)).mp (lt_of_le_of_lt s1 hlt)
    have hj : max (ilog2 ((m : ℚ) * 2 ^ k)) emin - ((prec : Int) - 1) ≤ k := by
      rcases max_cases (ilog2 ((m : ℚ) * 2 ^ k)) emin with ⟨h, _⟩ | ⟨h, _⟩ <;> rw [h] <;> omega
    unfold round_pos
    simp only
    generalize max (ilog2 ((m : ℚ) * 2 ^ k)) emin - ((prec : Int) - 1) = j at *
    obtain ⟨t, ht⟩ := Int.eq_ofNat_of_zero_le (by omega : 0 ≤ k - j)
    have hdiv : (m : ℚ) * 2 ^ k / 2 ^ j = ((m * 2 ^ t : Nat) : ℚ) := by
      rw [mul_div_assoc, two_zpow_sub, ht, two_zpow_nat]
      push_cast; rfl
    rw [hdiv, round_half_even_nat]
    have hkj : k = (t : Int) + j := by omega
    rw [hkj, zpow_add₀ (by norm_num), two_zpow_nat]
    push_cast
    ring

theorem round_fmt_of_nonneg (prec : Nat) (emin : Int) (x : ℚ) (hx : 0 ≤ x) :
    round_fmt prec emin x = round_pos prec emin x := by
  unfold round_fmt
  rw [if_neg (not_lt.mpr hx)]

theorem round_fmt_of_neg (prec : Nat) (emin : Int) (x : ℚ) (hx : x < 0) :
    round_fmt prec emin x = -round_pos prec emin (-x) := by
  unfold round_fmt
  rw [if_pos hx]

theorem round_fmt_zero (prec : Nat) (emin : Int) : round_fmt prec emin 0 = 0 := by
  rw [round_fmt_of_nonneg _ _ _ (le_refl _), round_pos_zero]

theorem round_fmt_nonneg (prec : Nat) (emin : Int) (x : ℚ) (hx : 0 ≤ x) :
    0 ≤ round_fmt prec emin x := by
  rw [round_fmt_of_nonneg _ _ _ hx]
  exact round_pos_nonneg _ _ _

theorem round_fmt_nonpos (prec : Nat) (emin : Int) (x : ℚ) (hx : x ≤ 0) :
    round_fmt prec emin x ≤ 0 := by
  rcases eq_or_lt_of_le hx with h | h
  · rw [h, round_fmt_zero]
  · rw [round_fmt_of_neg _ _ _ h]
    exact neg_nonpos.mpr (round_pos_nonneg _ _ _)

theorem round_fmt_mono (prec : Nat) (emin : Int) (x y : ℚ) (hp : 1 ≤ prec) (hxy : x ≤ y) :
    round_fmt prec emin x ≤ round_fmt prec emin y := by
  by_cases hx : x < 0
  · by_cases hy : y < 0
    · rw [round_fmt_of_neg _ _ _ hx, round_fmt_of_neg _ _ _ hy]
      exact neg_le_neg (round_pos_mono _ _ _ _ hp (by linarith) (by linarith))
    · exact le_trans (round_fmt_nonpos _ _ _ (le_of_lt hx))
        (round_fmt_nonneg _ _ _ (not_lt.mp hy))
  · have hx0 := not_lt.mp hx
    rw [round_fmt_of_nonneg _ _ _ hx0, round_fmt_of_nonneg _ _ _ (le_trans hx0 hxy)]
    exact round_pos_mono _ _ _ _ hp hx0 hxy

theorem round_fmt_exact (prec : Nat) (emin : Int) (x : ℚ) (h : representable prec emin x) :
    round_fmt prec emin x = x := by
  obtain ⟨m, k, hm, hk, hx | hx⟩ := h
  · have h0 : 0 ≤ x := by rw [hx]; exact mul_nonneg (Nat.cast_nonneg _) (le_of_lt (two_zpow_pos k))
    rw [round_fmt_of_nonneg _ _ _ h0, hx]
    exact round_pos_exact prec emin m k hm hk
  · have h0 : 0 ≤ (m : ℚ) * 2 ^ k := mul_nonneg (Nat.cast_nonneg _) (le_of_lt (two_zpow_pos k))
    rcases eq_or_lt_of_le h0 with hz | hpos
    · rw [hx, ← hz]
      simp [round_fmt_zero]
    · have hneg : x < 0 := by rw [hx]; linarith
      rw [round_fmt_of_neg _ _ _ hneg, hx, neg_neg, round_pos_exact prec emin m k hm hk]

theorem round_pos_representable (prec : Nat) (emin : Int) (x : ℚ) (hp : 1 ≤ prec)
    (hx : 0 ≤ x) :
    ∃ m : Nat, ∃ k : Int, m < 2 ^ prec ∧ emin - ((prec : Int) - 1) ≤ k
      ∧ round_pos prec emin x = (m : ℚ) * 2 ^ k := by
  rcases eq_or_lt_of_le hx with h0 | hpos
  · exact ⟨0, emin - ((prec : Int) - 1), Nat.pow_pos (by decide), le_refl _, by
      rw [← h0, round_pos_zero]; simp⟩
  · have hle := round_pos_le_pow prec emin x hpos
    have hE : emin ≤ max (ilog2 x) emin := le_max_right _ _
    unfold round_pos at hle ⊢
    simp only at hle ⊢
    generalize max (ilog2 x) emin = E at *
    generalize round_half_even (x / 2 ^ (E - ((prec : Int) - 1))) = r at *
    have hu := two_zpow_pos (E - ((prec : Int) - 1))
    have hr : r ≤ 2 ^ prec := by
      have : (r : ℚ) * 2 ^ (E - ((prec : Int) - 1))
          ≤ ((2 ^ prec : Nat) : ℚ) * 2 ^ (E - ((prec : Int) - 1)) := by
        rw [← two_zpow_nat, ← zpow_add₀ (by norm_num)]
        have : (prec : Int) + (E - ((prec : Int) - 1)) = E + 1 := by ring
        rw [this]; exact hle
      have := le_of_mul_le_mul_right this hu
      exact_mod_cast this
    rcases eq_or_lt_of_le hr with heq | hlt
    · refine ⟨2 ^ (prec - 1), E - ((prec : Int) - 1) + 1, Nat.pow_lt_pow_right (by decide)
        (by omega), by omega, ?_⟩
      rw [heq, zpow_add_one₀ (by norm_num)]
      have : (2 ^ prec : Nat) = 2 ^ (prec - 1) * 2 := by
        rw [← pow_succ]; congr 1; omega
      rw [this]; push_cast; ring
    · exact ⟨r, E - ((prec : Int) - 1), hlt, by omega, rfl⟩

theorem round_fmt_representable (prec : Nat) (emin : Int) (x : ℚ) (hp : 1 ≤ prec) :
    representable prec emin (round_fmt prec emin x) := by
  by_cases hx : x < 0
  · obtain ⟨m, k, hm, hk, h⟩ := round_pos_representable prec emin (-x) hp (by linarith)
    exact ⟨m, k, hm, hk, Or.inr (by rw [round_fmt_of_neg _ _ _ hx, h])⟩
  · obtain ⟨m, k, hm, hk, h⟩ := round_pos_representable prec emin x hp (not_lt.mp hx)
    exact ⟨m, k, hm, hk, Or.inl (by rw [round_fmt_of_nonneg _ _ _ (not_lt.mp hx), h])⟩

theorem round_fmt_idem (prec : Nat) (emin : Int) (x : ℚ) (hp : 1 ≤ prec) :
    round_fmt prec emin (round_fmt prec emin x) = round_fmt prec emin x :=
  round_fmt_exact _ _ _ (round_fmt_representable _ _ x hp)

/-- Integers of magnitude up to `2^prec` are values of the format. -/
theorem representable_int (prec : Nat) (emin : Int) (n : Int) (hp : 1 ≤ prec)
    (he : emin ≤ 0) (hn : n.natAbs ≤ 2 ^ prec) : representable prec emin (n : ℚ) := by
  have hcast : (n : ℚ) = (n.natAbs : ℚ) ∨ (n : ℚ) = -(n.natAbs : ℚ) := by
    generalize hm : n.natAbs = m
    have h : n = (m : Int) ∨ n = -(m : Int) := by omega
    rcases h with h | h
    · left; rw [h]; rfl
    · right; rw [h]; push_cast; rfl
  rcases eq_or_lt_of_le hn with heq | hlt
  · refine ⟨2 ^ (prec - 1), 1, Nat.pow_lt_pow_right (by decide) (by omega), by omega, ?_⟩
    have h2 : ((2 ^ (prec - 1) : Nat) : ℚ) * 2 ^ (1 : Int) = (n.natAbs : ℚ) := by
      rw [heq, zpow_one]
      have : (2 ^ prec : Nat) = 2 ^ (prec - 1) * 2 := by
        rw [← pow_succ]; congr 1; omega
      rw [this]; push_cast; ring
    rw [h2]; exact hcast
  · refine ⟨n.natAbs, 0, hlt, by omega, ?_⟩
    simpa using hcast

theorem round_fmt_int (prec : Nat) (emin : Int) (n : Int) (hp : 1 ≤ prec) (he : emin ≤ 0)
    (hn : n.natAbs ≤ 2 ^ prec) : round_fmt prec emin (n : ℚ) = n :=
  round_fmt_exact _ _ _ (representable_int prec emin n hp he hn)

theorem f32_mono (x y : ℚ) (h : x ≤ y) : f32 x ≤ f32 y :=
  round_fmt_mono 24 (-126) x y (by decide) h

theorem f32_zero : f32 0 = 0 := round_fmt_zero _ _

theorem f32_nonneg (x : ℚ) (h : 0 ≤ x) : 0 ≤ f32 x := round_fmt_nonneg _ _ _ h

theorem f32_idem (x : ℚ) : f32 (f32 x) = f32 x := round_fmt_idem 24 (-126) x (by decide)

/-- Integers of magnitude up to `2^24` are `float` values. -/
theorem f32_int (n : Int) (h : n.natAbs ≤ 16777216) : f32 (n : ℚ) = n :=
  round_fmt_int 24 (-126) n (by decide) (by decide) (by simpa using h)

theorem f32_le_int (x : ℚ) (n : Int) (hn : n.natAbs ≤ 16777216) (h : x ≤ n) : f32 x ≤ n := by
  rw [← f32_int n hn]
  exact f32_mono _ _ h

theorem f32_ge_int (x : ℚ) (n : Int) (hn : n.natAbs ≤ 16777216) (h : (n : ℚ) ≤ x) :
    (n : ℚ) ≤ f32 x := by
  rw [← f32_int n hn]
  exact f32_mono _ _ h

/-- A rounded value that stays within `FLT_MAX` is the finite result. -/
theorem Flt.round_fin (x : ℚ) (h0 : 0 ≤ x) (h1 : f32 x ≤ FLT_MAX) :
    Flt.round x = Flt.fin (f32 x) := by
  have hn := f32_nonneg x h0
  have hm : (0 : ℚ) ≤ FLT_MAX := by unfold FLT_MAX; norm_num
  unfold Flt.round
  rw [if_neg (not_lt.mpr h1), if_neg (not_lt.mpr (by linarith))]

/-- The result of an operation on non-negative values is not below zero. -/
theorem Flt.round_ge_zero (x : ℚ) (h0 : 0 ≤ x) : (Flt.round x).ge (Flt.fin 0) = true := by
  have hn := f32_nonneg x h0
  have hm : (0 : ℚ) ≤ FLT_MAX := by unfold FLT_MAX; norm_num
  unfold Flt.round
  split
  · rfl
  · rw [if_neg (not_lt.mpr (by linarith))]
    simpa [Flt.ge] using hn

theorem Flt.round_zero : Flt.round 0 = Flt.fin 0 := by
  rw [Flt.round_fin 0 (le_refl _) (by rw [f32_zero]; unfold FLT_MAX; norm_num), f32_zero]

theorem f32_pos_of_int (n : Int) (h : 0 < n) : 0 < f32 (n : ℚ) := by
  have h1 : ((1 : Int) : ℚ) ≤ f32 (n : ℚ) :=
    f32_ge_int _ 1 (by decide) (by exact_mod_cast h)
  have : (0 : ℚ) < ((1 : Int) : ℚ) := by norm_num
  linarith

/-! ## Lemmas on traces and loops -/

@[simp]
theorem saves_emit (s : St) (e : Event) :
    saves (s.emit e).trace = saves s.trace + (if e = Event.save_state then 1 else 0) := by
  simp only [saves, St.emit, List.count_append, List.count_singleton]
  by_cases h : e = Event.save_state
  · simp [h]
  · have h2 : ¬ (Event.save_state = e) := fun h3 => h h3.symm
    simp [h, h2]

@[simp]
theorem trace_obs (s : St) : s.obs.trace = s.trace := rfl


theorem kill_switch_saved (env : Env) (opts : Options) (s : St) :
    saves (kill_switch env opts s).1.trace
      = saves s.trace + (if (kill_switch env opts s).2 then 1 else 0) := by
  unfold kill_switch
  by_cases hif : opts.interface = ""
  · simp [hif]
  · cases hup : interface_up (env.operstate s.clock) <;> simp [hif, hup]

theorem metadata_tick_saved (env : Env) (opts : Options) (s : St) :
    (metadata_tick env opts s).saved (saves s.trace) := by
  unfold metadata_tick
  simp only
  cases (env.status s.clock).has_metadata
  · cases env.interrupted (s.emit Event.status_query).obs.clock
    · have hk := kill_switch_saved env opts (s.emit Event.status_query).obs.obs
      rcases hks : kill_switch env opts (s.emit Event.status_query).obs.obs with ⟨s1, b⟩
      rw [hks] at hk
      cases b
      · by_cases hq : (!opts.quiet && is_magnet opts.input) = true
        · simp [Step.saved, hq] at hk ⊢
          exact hk
        · simp [Step.saved, hq] at hk ⊢
          simp [hq, hk]
      · simpa [Step.saved] using hk
    · simp [Step.saved]
  · simp [Step.saved]

theorem download_tick_saved (env : Env) (opts : Options) (ti : Option TorrentInfo) (s : St) :
    (download_tick env opts ti s).saved (saves s.trace) := by
  unfold download_tick
  simp only
  cases env.interrupted s.clock
  · have hk := kill_switch_saved env opts s.obs
    rcases hks : kill_switch env opts s.obs with ⟨s1, b⟩
    rw [hks] at hk
    cases b
    · simp only [Bool.false_eq_true, if_false]
      cases (env.status s1.clock).is_seeding
      · cases opts.quiet
        · simp only [Bool.not_false, if_true, Bool.false_eq_true, if_false]
          cases download_render ti (env.status s1.clock)
            (get_terminal_width (env.ws_col (s1.emit Event.status_query).obs.clock))
          · simp [Step.saved]
          · simpa [Step.saved] using hk
        · simpa [Step.saved] using hk
      · simpa [Step.saved] using hk
    · simpa [Step.saved] using hk
  · simp [Step.saved]

theorem seeding_tick_saved (env : Env) (opts : Options) (total_size target_upload : Int)
    (s : St) : (seeding_tick env opts total_size target_upload s).saved (saves s.trace) := by
  unfold seeding_tick
  simp only
  cases env.interrupted s.clock
  · have hk := kill_switch_saved env opts s.obs
    rcases hks : kill_switch env opts s.obs with ⟨s1, b⟩
    rw [hks] at hk
    cases b
    · simp only [Bool.false_eq_true, if_false]
      generalize Flt.ge _ opts.seed_ratio = b
      cases b
      · cases opts.quiet
        · simp only [Bool.not_false, if_true, Bool.false_eq_true, if_false]
          cases seeding_render target_upload (env.status s1.clock)
            (get_terminal_width (env.ws_col (s1.emit Event.status_query).obs.clock))
          · simp [Step.saved]
          · simpa [Step.saved] using hk
        · simpa [Step.saved] using hk
      · simpa [Step.saved] using hk
    · simpa [Step.saved] using hk
  · simp [Step.saved]

theorem run_loop_saved (tick : St → Step) (h : ∀ s, (tick s).saved (saves s.trace))
    (fuel : Nat) (s : St) : (run_loop tick fuel s).saved (saves s.trace) := by
  induction fuel generalizing s with
  | zero => simp [run_loop, Step.saved]
  | succ n ih =>
    have hs := h s
    simp only [run_loop]
    cases ht : tick s with
    | next s1 =>
      rw [ht] at hs
      simp only [Step.saved] at hs
      simpa [hs] using ih s1
    | exit s1 => rw [ht] at hs; simpa using hs
    | ret c s1 => rw [ht] at hs; simpa using hs
    | fault f s1 => simp [Step.saved]

theorem run_loop_add (tick : St → Step) (n m : Nat) (s0 s : St)
    (h : run_loop tick n s0 = .next s) : run_loop tick (n + m) s0 = run_loop tick m s := by
  induction n generalizing s0 with
  | zero =>
    simp only [run_loop] at h
    cases h
    simp
  | succ n ih =>
    rw [Nat.succ_add]
    simp only [run_loop] at h ⊢
    cases ht : tick s0 with
    | next s1 => rw [ht] at h; simp only at h ⊢; exact ih s1 h
    | exit s1 => rw [ht] at h; simp at h
    | ret c s1 => rw [ht] at h; simp at h
    | fault f s1 => rw [ht] at h; simp at h

theorem kill_switch_down (env : Env) (opts : Options) (s : St)
    (hif : opts.interface ≠ "") (hdown : interface_up (env.operstate s.clock) = false) :
    kill_switch env opts s =
      (⟨s.clock + 1, s.trace ++ [.guard_poll false, .save_state, .err (kill_switch_text opts)]⟩,
        true) := by
  simp [kill_switch, hif, hdown, St.emit, St.obs]

theorem announce_info_saves (opts : Options) (ti : Option TorrentInfo) (s : St) :
    saves (announce_info opts ti s).trace = saves s.trace := by
  unfold announce_info
  cases ti <;> cases opts.quiet <;> simp

theorem announce_complete_saves (opts : Options) (ti : Option TorrentInfo) (s : St) :
    saves (announce_complete opts ti s).trace = saves s.trace := by
  unfold announce_complete
  cases ti <;> cases opts.quiet <;> simp

theorem after_seeding_saved (env : Env) (opts : Options) (s : St) :
    (after_seeding env opts s).saved (saves s.trace) := by
  unfold after_seeding
  simp only
  cases env.interrupted s.clock
  · cases opts.quiet <;> simp [Outcome.saved]
  · simp [Outcome.saved]

theorem seeding_phase_saved (fuel : Nat) (env : Env) (opts : Options)
    (ti : Option TorrentInfo) (s : St) :
    (seeding_phase fuel env opts ti s).saved (saves s.trace) := by
  unfold seeding_phase
  simp only
  generalize hs1 : (if (!opts.quiet) = true then
      s.emit (.err ("\nSeeding to ratio " ++ opts.seed_ratio.fixed1 ++ "...\n\n")) else s) = s1
  have h1 : saves s1.trace = saves s.trace := by
    rw [← hs1]; cases opts.quiet <;> simp
  rw [← h1]
  cases to_int64 ((Flt.ofInt (total_size_of ti)).mul opts.seed_ratio) with
  | error f => simp [Outcome.saved]
  | ok target_upload =>
    simp only
    have hl := run_loop_saved _ (seeding_tick_saved env opts (total_size_of ti) target_upload) fuel s1
    cases hr : run_loop (seeding_tick env opts (total_size_of ti) target_upload) fuel s1 with
    | next s2 => simp [Outcome.saved]
    | fault f s2 => simp [Outcome.saved]
    | ret c s2 =>
      rw [hr] at hl
      simp only [Step.saved] at hl
      simp [Outcome.saved, hl]
    | exit s2 =>
      rw [hr] at hl
      simp only [Step.saved] at hl
      simp only
      rw [← hl]
      exact after_seeding_saved env opts s2

theorem after_download_saved (fuel : Nat) (env : Env) (opts : Options)
    (ti : Option TorrentInfo) (s : St) :
    (after_download fuel env opts ti s).saved (saves s.trace) := by
  unfold after_download
  simp only
  cases env.interrupted s.clock
  · simp only [Bool.false_eq_true, if_false]
    have h1 : saves s.trace = saves (announce_complete opts ti s.obs).trace := by
      rw [announce_complete_saves]; rfl
    rw [h1]
    generalize announce_complete opts ti s.obs = s1
    cases opts.no_seed
    · simpa using seeding_phase_saved fuel env opts ti s1
    · simp [Outcome.saved]
  · simp [Outcome.saved]

theorem after_metadata_saved (fuel : Nat) (env : Env) (opts : Options) (s : St) :
    (after_metadata fuel env opts s).saved (saves s.trace) := by
  unfold after_metadata
  simp only
  generalize hs1 : (if (!opts.quiet && is_magnet opts.input) = true then s.emit (.err "\n")
    else s) = s1
  have h1 : saves s1.trace = saves s.trace := by
    rw [← hs1]; split <;> simp
  rw [← h1]
  cases env.interrupted s1.clock
  · simp only [Bool.false_eq_true, if_false]
    have h2 : saves s1.trace = saves (announce_info opts env.torrent_file s1.obs).trace := by
      rw [announce_info_saves]; rfl
    rw [h2]
    generalize announce_info opts env.torrent_file s1.obs = s2
    have hl := run_loop_saved _ (download_tick_saved env opts env.torrent_file) fuel s2
    cases hr : run_loop (download_tick env opts env.torrent_file) fuel s2 with
    | next s3 => simp [Outcome.saved]
    | fault f s3 => simp [Outcome.saved]
    | ret c s3 =>
      rw [hr] at hl
      simp only [Step.saved] at hl
      simp [Outcome.saved, hl]
    | exit s3 =>
      rw [hr] at hl
      simp only [Step.saved] at hl
      simp only
      rw [← hl]
      exact after_download_saved fuel env opts env.torrent_file s3
  · simp [Outcome.saved]

theorem wait_saved (fuel : Nat) (env : Env) (opts : Options) (s : St) :
    (match run_loop (metadata_tick env opts) fuel s with
    | .next s => Outcome.out_of_fuel s
    | .ret code s => Outcome.ret code s
    | .fault f s => Outcome.fault f s
    | .exit s => after_metadata fuel env opts s).saved (saves s.trace) := by
  have hl := run_loop_saved _ (metadata_tick_saved env opts) fuel s
  cases hr : run_loop (metadata_tick env opts) fuel s with
  | next s3 => simp [Outcome.saved]
  | fault f s3 => simp [Outcome.saved]
  | ret c s3 =>
    rw [hr] at hl
    simp only [Step.saved] at hl
    simp [Outcome.saved, hl]
  | exit s3 =>
    rw [hr] at hl
    simp only [Step.saved] at hl
    simp only
    rw [← hl]
    exact after_metadata_saved fuel env opts s3


theorem add_torrent_cases (env : Env) (opts : Options) (s : St) :
    saves (add_torrent env opts s).1.trace = saves s.trace
      ∧ (∀ code, (add_torrent env opts s).2 = some (.ok code) →
          code = 1 ∧ is_magnet opts.input = false ∧ env.input_exists = false)
      ∧ ((add_torrent env opts s).2 = none →
          ¬ (is_magnet opts.input = false ∧ env.input_exists = false)) := by
  unfold add_torrent
  cases env.output_dir_ok <;> cases is_magnet opts.input <;> cases env.magnet_ok <;>
    cases env.input_exists <;> cases env.torrent_ok <;> cases opts.quiet <;> simp

theorem add_and_wait_saved (fuel : Nat) (env : Env) (opts : Options) (s : St) (code : Int)
    (s1 : St) (h : add_and_wait fuel env opts s = .ret code s1) :
    (is_magnet opts.input = false ∧ env.input_exists = false
        ∧ code = 1 ∧ saves s1.trace = saves s.trace)
      ∨ (¬ (is_magnet opts.input = false ∧ env.input_exists = false)
        ∧ (code = 0 ∨ code = 1 ∨ code = 130) ∧ saves s1.trace = saves s.trace + 1) := by
  obtain ⟨hsv, hret, hnone⟩ := add_torrent_cases env opts s
  unfold add_and_wait at h
  rcases hadd : add_torrent env opts s with ⟨s2, r⟩
  rw [hadd] at h hsv hret hnone
  simp only at hsv hret hnone
  cases r with
  | none =>
    right
    simp only at h
    have hw := wait_saved fuel env opts s2
    rw [h] at hw
    simp only [Outcome.saved] at hw
    exact ⟨hnone rfl, hw.1, by rw [hw.2, hsv]⟩
  | some e =>
    cases e with
    | error f => simp at h
    | ok c =>
      left
      simp only [Outcome.ret.injEq] at h
      obtain ⟨h1, h2⟩ := h
      subst h1 h2
      obtain ⟨a, b, c2⟩ := hret c rfl
      exact ⟨b, c2, a, hsv⟩

theorem kill_switch_up (env : Env) (opts : Options) (s : St)
    (hif : opts.interface ≠ "") (hup : interface_up (env.operstate s.clock) = true) :
    kill_switch env opts s = (⟨s.clock + 1, s.trace ++ [.guard_poll true]⟩, false) := by
  simp [kill_switch, hif, hup, St.emit, St.obs]

theorem kill_switch_none (env : Env) (opts : Options) (s : St) (hif : opts.interface = "") :
    kill_switch env opts s = (s, false) := by
  simp [kill_switch, hif]

/-! ## The claims -/

/-- C1 (kill-switch priority): in a pass of the download loop or of the seeding
loop that starts with the interrupt flag clear, an interface configured and
`interface_up` answering false, the session state is saved and
`download_torrent` returns 1, whatever the engine status is; the engine is not
even queried.  This holds for the pass after any number `n` of completed
passes. -/
theorem kill_switch_priority (env : Env) (opts : Options) (ti : Option TorrentInfo)
    (total_size target_upload : Int) (s : St)
    (hint : env.interrupted s.clock = false)
    (hif : opts.interface ≠ "")
    (hdown : interface_up (env.operstate (s.clock + 1)) = false) :
    download_tick env opts ti s
        = .ret 1 ⟨s.clock + 2,
            s.trace ++ [.guard_poll false, .save_state, .err (kill_switch_text opts)]⟩
      ∧ seeding_tick env opts total_size target_upload s
        = .ret 1 ⟨s.clock + 2,
            s.trace ++ [.guard_poll false, .save_state, .err (kill_switch_text opts)]⟩
      ∧ (∀ n m s0, run_loop (download_tick env opts ti) n s0 = .next s →
          run_loop (download_tick env opts ti) (n + (m + 1)) s0
            = .ret 1 ⟨s.clock + 2,
                s.trace ++ [.guard_poll false, .save_state, .err (kill_switch_text opts)]⟩)
      ∧ (∀ n m s0, run_loop (seeding_tick env opts total_size target_upload) n s0 = .next s →
          run_loop (seeding_tick env opts total_size target_upload) (n + (m + 1)) s0
            = .ret 1 ⟨s.clock + 2,
                s.trace ++ [.guard_poll false, .save_state, .err (kill_switch_text opts)]⟩) := by
  have hk := kill_switch_down env opts s.obs hif (by simpa [St.obs] using hdown)
  have hd : download_tick env opts ti s
      = .ret 1 ⟨s.clock + 2,
          s.trace ++ [.guard_poll false, .save_state, .err (kill_switch_text opts)]⟩ := by
    simp only [download_tick, hint, hk]
    simp [St.obs]
  have hs : seeding_tick env opts total_size target_upload s
      = .ret 1 ⟨s.clock + 2,
          s.trace ++ [.guard_poll false, .save_state, .err (kill_switch_text opts)]⟩ := by
    simp only [seeding_tick, hint, hk]
    simp [St.obs]
  refine ⟨hd, hs, ?_, ?_⟩
  · intro n m s0 h
    rw [run_loop_add _ n (m + 1) s0 s h]
    simp only [run_loop, hd]
  · intro n m s0 h
    rw [run_loop_add _ n (m + 1) s0 s h]
    simp only [run_loop, hs]

/-- Witness of C1: the second pass of the download loop and of the seeding
loop in a world where the interface `tun0` has gone down. -/
theorem kill_switch_priority_witness :
    download_tick env_iface_down opts_magnet_tun0 (some sample_info) ⟨7, [.sleep]⟩
        = .ret 1 ⟨9, [.sleep, .guard_poll false, .save_state,
            .err "\n\nKill switch: interface tun0 is down\n"]⟩
      ∧ seeding_tick env_iface_down opts_magnet_tun0 1048576 2097152 ⟨7, [.sleep]⟩
        = .ret 1 ⟨9, [.sleep, .guard_poll false, .save_state,
            .err "\n\nKill switch: interface tun0 is down\n"]⟩ :=
  have h := kill_switch_priority env_iface_down opts_magnet_tun0 (some sample_info)
    1048576 2097152 ⟨7, [.sleep]⟩ rfl (by decide) rfl
  ⟨h.1, h.2.1⟩

/-- Counterexample to C2: with `-i tun0` and the interface down at start-up,
and with a local descriptor that does not exist, `download_torrent` returns 1
and `save_session_state` has not been called. -/
theorem startup_returns_do_not_save :
    (download_torrent 1 env_iface_down opts_magnet_tun0).code = some 1
      ∧ saves (download_torrent 1 env_iface_down opts_magnet_tun0).state.trace = 0
      ∧ (download_torrent 1 env_no_file opts_file).code = some 1
      ∧ saves (download_torrent 1 env_no_file opts_file).state.trace = 0 := by
  decide

/-- C2, amended: when `download_torrent` returns after one of its two start-up
errors (configured interface down at start-up, local descriptor missing), the
code is 1 and `save_session_state` has not been called; on every other path on
which it returns, the code is 0, 1 or 130 and `save_session_state` has been
called exactly once before the return. -/
theorem saved_once_after_startup (fuel : Nat) (env : Env) (opts : Options) (code : Int)
    (s : St) (h : download_torrent fuel env opts = .ret code s) :
    (startup_error env opts → code = 1 ∧ saves s.trace = 0)
      ∧ (¬ startup_error env opts →
          (code = 0 ∨ code = 1 ∨ code = 130) ∧ saves s.trace = 1) := by
  unfold download_torrent at h
  simp only at h
  by_cases hif : opts.interface = ""
  · simp only [hif, ne_eq, not_true_eq_false, if_false] at h
    rcases add_and_wait_saved fuel env opts _ code s h with h1 | h1
    · refine ⟨fun _ => ⟨h1.2.2.1, by simpa [saves] using h1.2.2.2⟩, fun hn => ?_⟩
      exact absurd (Or.inr ⟨h1.1, h1.2.1⟩) hn
    · refine ⟨fun he => ?_, fun _ => ⟨h1.2.1, by simpa [saves] using h1.2.2⟩⟩
      rcases he with he | he
      · exact absurd hif he.1
      · exact absurd he h1.1
  · simp only [ne_eq, hif, not_false_eq_true, if_true] at h
    cases hup : interface_up (env.operstate 0)
    · simp [hup, St.emit, St.obs] at h
      obtain ⟨h1, h2⟩ := h
      subst h2
      refine ⟨fun _ => ⟨h1.symm, by simp [saves]⟩, fun hn => ?_⟩
      exact absurd (Or.inl ⟨hif, hup⟩) hn
    · simp only [hup, Bool.not_true, Bool.false_eq_true, if_false] at h
      rcases add_and_wait_saved fuel env opts _ code s h with h1 | h1
      · refine ⟨fun _ => ⟨h1.2.2.1, ?_⟩, fun hn => ?_⟩
        · rw [h1.2.2.2]; simp [St.emit, St.obs, saves]
        · exact absurd (Or.inr ⟨h1.1, h1.2.1⟩) hn
      · refine ⟨fun he => ?_, fun _ => ⟨h1.2.1, ?_⟩⟩
        · rcases he with he | he
          · rw [hup] at he; simp at he
          · exact absurd he h1.1
        · rw [h1.2.2]; simp [St.emit, St.obs, saves]

/-- Witness of C2: `curlent <magnet> -n` in the calm world returns 0 after one
save. -/
theorem saved_once_after_startup_witness :
    (download_torrent 1 env_calm opts_magnet_no_seed).code = some 0
      ∧ ¬ startup_error env_calm opts_magnet_no_seed
      ∧ saves (download_torrent 1 env_calm opts_magnet_no_seed).state.trace = 1 :=
  ⟨by decide!, by decide, ((saved_once_after_startup 1 env_calm opts_magnet_no_seed 0
    (download_torrent 1 env_calm opts_magnet_no_seed).state (by decide!)).2
      (by decide)).2⟩

/-- Counterexample to C3: a pass of the metadata loop with `-i tun0` queries the
engine status (loop condition), then polls the guard, then queries the status
again; the first status query precedes the guard poll. -/
theorem metadata_tick_queries_engine_first :
    tick_events ⟨1, []⟩ (metadata_tick env_no_metadata opts_magnet_tun0 ⟨1, []⟩)
        = [.status_query, .guard_poll true, .status_query, .session_query,
            .err "\rWaiting for metadata... peers: 0, DHT nodes: 12\x1b[K", .sleep]
      ∧ guard_precedes_status
          (tick_events ⟨1, []⟩ (metadata_tick env_no_metadata opts_magnet_tun0 ⟨1, []⟩))
        = false := by
  decide

theorem download_tick_head (env : Env) (opts : Options) (ti : Option TorrentInfo) (s : St)
    (hif : opts.interface ≠ "") (hint : env.interrupted s.clock = false) :
    (tick_events s (download_tick env opts ti s)).take 1
      = [.guard_poll (interface_up (env.operstate (s.clock + 1)))] := by
  cases hup : interface_up (env.operstate (s.clock + 1))
  · have hk := kill_switch_down env opts s.obs hif (by simpa [St.obs] using hup)
    simp only [download_tick, hint, hk]
    simp [tick_events, Step.state, St.obs]
  · have hk := kill_switch_up env opts s.obs hif (by simpa [St.obs] using hup)
    simp only [download_tick, hint, hk]
    simp only [Bool.false_eq_true, if_false]
    cases (env.status (s.obs.clock + 1)).is_seeding
    · cases opts.quiet
      · simp only [Bool.not_false, if_true, Bool.false_eq_true, if_false]
        cases download_render ti (env.status (s.obs.clock + 1)) _ <;>
          simp [tick_events, Step.state, St.emit, St.obs]
      · simp [tick_events, Step.state, St.emit, St.obs]
    · simp [tick_events, Step.state, St.emit, St.obs]

theorem seeding_tick_head (env : Env) (opts : Options) (total_size target_upload : Int)
    (s : St) (hif : opts.interface ≠ "") (hint : env.interrupted s.clock = false) :
    (tick_events s (seeding_tick env opts total_size target_upload s)).take 1
      = [.guard_poll (interface_up (env.operstate (s.clock + 1)))] := by
  cases hup : interface_up (env.operstate (s.clock + 1))
  · have hk := kill_switch_down env opts s.obs hif (by simpa [St.obs] using hup)
    simp only [seeding_tick, hint, hk]
    simp [tick_events, Step.state, St.obs]
  · have hk := kill_switch_up env opts s.obs hif (by simpa [St.obs] using hup)
    simp only [seeding_tick, hint, hk]
    simp only [Bool.false_eq_true, if_false]
    generalize Flt.ge _ opts.seed_ratio = b
    cases b
    · cases opts.quiet
      · simp only [Bool.not_false, if_true, Bool.false_eq_true, if_false]
        cases seeding_render target_upload (env.status (s.obs.clock + 1)) _ <;>
          simp [tick_events, Step.state, St.emit, St.obs]
      · simp [tick_events, Step.state, St.emit, St.obs]
    · simp [tick_events, Step.state, St.emit, St.obs]

theorem metadata_tick_head (env : Env) (opts : Options) (s : St)
    (hif : opts.interface ≠ "") (hmeta : (env.status s.clock).has_metadata = false)
    (hint : env.interrupted (s.clock + 1) = false) :
    (tick_events s (metadata_tick env opts s)).take 2
      = [.status_query, .guard_poll (interface_up (env.operstate (s.clock + 2)))] := by
  have hint1 : env.interrupted (s.emit Event.status_query).obs.clock = false := hint
  cases hup : interface_up (env.operstate (s.clock + 2))
  · have hk := kill_switch_down env opts (s.emit Event.status_query).obs.obs hif
      (by simpa [St.obs, St.emit] using hup)
    simp only [metadata_tick, hmeta, hint1, hk]
    simp [tick_events, Step.state, St.obs, St.emit]
  · have hk := kill_switch_up env opts (s.emit Event.status_query).obs.obs hif
      (by simpa [St.obs, St.emit] using hup)
    simp only [metadata_tick, hmeta, hint1, hk]
    simp only [Bool.false_eq_true, if_false]
    split <;> simp [tick_events, Step.state, St.emit, St.obs]

theorem guard_precedes_of_take (evs : List Event) (up : Bool)
    (h : evs.take 1 = [.guard_poll up]) : guard_precedes_status evs = true := by
  cases evs with
  | nil => simp at h
  | cons e rest =>
    simp at h
    subst h
    rfl

theorem status_precedes_of_take (evs : List Event) (e : Event)
    (h : evs.take 2 = [.status_query, e]) : guard_precedes_status evs = false := by
  cases evs with
  | nil => simp at h
  | cons e1 rest =>
    cases rest with
    | nil => simp at h
    | cons e2 rest2 =>
      simp at h
      rw [h.1]
      rfl

/-- C3, amended: with a kill-switch interface configured, a pass of the download
loop or of the seeding loop that finds the interrupt flag clear starts by
polling the guard, so no engine status query precedes the poll.  A pass of the
metadata loop starts with the status query of its loop condition; when that
reports no metadata and the flag is clear, the guard poll is the next event,
so there the status query precedes the poll. -/
theorem guard_polled_before_status (env : Env) (opts : Options) (ti : Option TorrentInfo)
    (total_size target_upload : Int) (s : St)
    (hif : opts.interface ≠ "") (hint : env.interrupted s.clock = false)
    (hmeta : (env.status s.clock).has_metadata = false)
    (hint1 : env.interrupted (s.clock + 1) = false) :
    ((tick_events s (download_tick env opts ti s)).take 1
        = [.guard_poll (interface_up (env.operstate (s.clock + 1)))]
      ∧ guard_precedes_status (tick_events s (download_tick env opts ti s)) = true)
    ∧ ((tick_events s (seeding_tick env opts total_size target_upload s)).take 1
        = [.guard_poll (interface_up (env.operstate (s.clock + 1)))]
      ∧ guard_precedes_status
          (tick_events s (seeding_tick env opts total_size target_upload s)) = true)
    ∧ ((tick_events s (metadata_tick env opts s)).take 2
        = [.status_query, .guard_poll (interface_up (env.operstate (s.clock + 2)))]
      ∧ guard_precedes_status (tick_events s (metadata_tick env opts s)) = false) :=
  ⟨⟨download_tick_head env opts ti s hif hint,
      guard_precedes_of_take _ _ (download_tick_head env opts ti s hif hint)⟩,
    ⟨seeding_tick_head env opts total_size target_upload s hif hint,
      guard_precedes_of_take _ _ (seeding_tick_head env opts total_size target_upload s hif hint)⟩,
    ⟨metadata_tick_head env opts s hif hmeta hint1,
      status_precedes_of_take _ _ (metadata_tick_head env opts s hif hmeta hint1)⟩⟩

/-- Witness of C3: one pass of each loop with `-i tun0`, the interface up and
the metadata not yet there. -/
theorem guard_polled_before_status_witness :
    (tick_events ⟨4, []⟩
        (download_tick env_no_metadata opts_magnet_tun0 (some sample_info) ⟨4, []⟩)).take 1
      = [.guard_poll true]
    ∧ (tick_events ⟨4, []⟩
        (seeding_tick env_no_metadata opts_magnet_tun0 1048576 2097152 ⟨4, []⟩)).take 1
      = [.guard_poll true]
    ∧ (tick_events ⟨4, []⟩ (metadata_tick env_no_metadata opts_magnet_tun0 ⟨4, []⟩)).take 2
      = [.status_query, .guard_poll true] :=
  have h := guard_polled_before_status env_no_metadata opts_magnet_tun0 (some sample_info)
    1048576 2097152 ⟨4, []⟩ (by decide) rfl rfl rfl
  ⟨h.1.1, h.2.1.1, h.2.2.1⟩

@[simp]
theorem clock_emit (s : St) (e : Event) : (s.emit e).clock = s.clock := rfl

@[simp]
theorem clock_obs (s : St) : s.obs.clock = s.clock + 1 := rfl

theorem announce_complete_clock (opts : Options) (ti : Option TorrentInfo) (s : St) :
    (announce_complete opts ti s).clock = s.clock := by
  unfold announce_complete
  cases ti <;> cases opts.quiet <;> simp

theorem announce_complete_trace (opts : Options) (ti : Option TorrentInfo) (s : St) :
    (announce_complete opts ti s).trace = s.trace ++ complete_events opts ti := by
  unfold complete_events announce_complete
  cases ti <;> cases opts.quiet <;> simp [St.emit]

/-- The ratio test of line 511 succeeds for a zero target. -/
theorem ratio_ge_zero (total_size uploaded : Int) (hup : 0 ≤ uploaded) :
    (if total_size > 0 then (Flt.ofInt uploaded).div (Flt.ofInt total_size)
      else Flt.fin 0).ge (Flt.fin 0) = true := by
  by_cases h : total_size > 0
  · have h1 : f32 (total_size : ℚ) ≠ 0 := ne_of_gt (f32_pos_of_int total_size h)
    have h2 : (0 : ℚ) ≤ f32 (uploaded : ℚ) := f32_nonneg _ (by exact_mod_cast hup)
    simp only [h, if_true, Flt.ofInt, Flt.div, h1, if_false]
    exact Flt.round_ge_zero _ (div_nonneg h2 (le_of_lt (f32_pos_of_int total_size h)))
  · simp [h, Flt.ge]

theorem seeding_tick_zero_ratio (env : Env) (opts : Options) (total_size target_upload : Int)
    (s : St) (hratio : opts.seed_ratio = Flt.fin 0)
    (hup : ∀ t, 0 ≤ (env.status t).total_upload)
    (hint : env.interrupted s.clock = false)
    (hguard : opts.interface ≠ "" → interface_up (env.operstate (s.clock + 1)) = true) :
    ∃ c, seeding_tick env opts total_size target_upload s
      = .exit ⟨c, s.trace ++ guard_events opts ++ [.status_query]⟩ ∧ s.clock ≤ c := by
  by_cases hif : opts.interface = ""
  · have hk := kill_switch_none env opts s.obs hif
    refine ⟨s.clock + 2, ?_, by omega⟩
    simp only [seeding_tick, hint, hk, hratio]
    simp only [ratio_ge_zero total_size _ (hup _)]
    simp [guard_events, hif, St.emit, St.obs]
  · have hk := kill_switch_up env opts s.obs hif (by simpa using hguard hif)
    refine ⟨s.clock + 3, ?_, by omega⟩
    simp only [seeding_tick, hint, hk, hratio]
    simp only [ratio_ge_zero total_size _ (hup _)]
    simp [guard_events, hif, St.emit, St.obs]

/-- C4 (zero-ratio seed phase): with `seed_ratio = 0.0` and `no_seed` false, once
the download loop has been left because `is_seeding` was observed, the code
after it runs exactly one pass of the seeding loop (one status query), saves the
session state and returns 0, for every total size `≥ 0` and every uploaded
count `≥ 0`, provided the interrupt flag stays clear and the guard, if
configured, answers up. -/
theorem zero_ratio_seed_ends_at_once (fuel : Nat) (env : Env) (opts : Options)
    (ti : Option TorrentInfo) (s : St)
    (hratio : opts.seed_ratio = Flt.fin 0) (hns : opts.no_seed = false)
    (hsize : 0 ≤ total_size_of ti)
    (hup : ∀ t, 0 ≤ (env.status t).total_upload)
    (hint : ∀ t, s.clock ≤ t → env.interrupted t = false)
    (hguard : opts.interface ≠ "" →
      ∀ t, s.clock ≤ t → interface_up (env.operstate t) = true) :
    ∃ c, after_download (fuel + 1) env opts ti s
      = .ret 0 ⟨c, s.trace ++ complete_events opts ti
          ++ (if opts.quiet then [] else [.err "\nSeeding to ratio 0.0...\n\n"])
          ++ guard_events opts ++ [.status_query]
          ++ (if opts.quiet then [] else [.err "\n\nSeeding complete!\x07\n"])
          ++ [.save_state]⟩ := by
  have hz : to_int64 ((Flt.ofInt (total_size_of ti)).mul (Flt.fin 0)) = .ok 0 := by
    simp [Flt.ofInt, Flt.mul, Flt.round_zero, to_int64, float_to_int, trunc, INT64_MIN,
      INT64_MAX]
  unfold after_download
  simp only [hint s.clock (le_refl _), hns, Bool.false_eq_true, if_false]
  unfold seeding_phase
  simp only [hratio, hz]
  generalize hs2 : (if (!opts.quiet) = true then
      (announce_complete opts ti s.obs).emit
        (.err ("\nSeeding to ratio " ++ (Flt.fin 0).fixed1 ++ "...\n\n"))
    else announce_complete opts ti s.obs) = s2
  have hc2 : s2.clock = s.clock + 1 := by
    rw [← hs2]
    cases opts.quiet <;> simp [announce_complete_clock]
  have ht2 : s2.trace = s.trace ++ complete_events opts ti
      ++ (if opts.quiet then [] else [.err "\nSeeding to ratio 0.0...\n\n"]) := by
    rw [← hs2]
    have h0 : (Flt.fin 0).fixed1 = "0.0" := by decide!
    cases opts.quiet
    · simp only [Bool.not_false, if_true, Bool.false_eq_true, if_false, St.emit,
        announce_complete_trace, h0]
      rfl
    · simp only [Bool.not_true, Bool.false_eq_true, if_false, if_true, announce_complete_trace,
        List.append_nil]
      rfl
  have _ := hsize
  obtain ⟨c, htick, hc⟩ := seeding_tick_zero_ratio env opts (total_size_of ti) 0 s2 hratio
    hup (hint _ (by omega)) (fun hif => hguard hif _ (by omega))
  simp only [run_loop, htick]
  unfold after_seeding
  simp only [hint c (by omega), Bool.false_eq_true, if_false]
  refine ⟨c + 1, ?_⟩
  rw [ht2]
  cases opts.quiet <;> simp [St.emit, St.obs]

/-- Witness of C4: `curlent <magnet> -r 0` in the calm world, from the state in
which the download loop is left. -/
theorem zero_ratio_seed_ends_at_once_witness :
    (after_download 1 env_calm opts_magnet_ratio0 (some sample_info) ⟨5, []⟩).code = some 0
      ∧ (after_download 1 env_calm opts_magnet_ratio0 (some sample_info) ⟨5, []⟩).state.trace
        = [.err "\n\nDownload complete!\x07\n", .err "Saved to: ./sample.iso\n",
          .err "\nSeeding to ratio 0.0...\n\n", .status_query,
          .err "\n\nSeeding complete!\x07\n", .save_state] := by
  obtain ⟨c, h⟩ := zero_ratio_seed_ends_at_once 0 env_calm opts_magnet_ratio0
    (some sample_info) ⟨5, []⟩ rfl rfl (by decide) (fun _ => le_refl _) (fun _ _ => rfl)
    (fun _ _ _ => rfl)
  rw [h]
  refine ⟨rfl, ?_⟩
  simp only [Outcome.state]
  decide

theorem trunc_nonneg (q : ℚ) (h : 0 ≤ q) : trunc q = ⌊q⌋ := by
  simp [trunc, h]

theorem float_to_int_ok (lo hi : Int) (q : ℚ) (h0 : 0 ≤ q) (hlo : lo ≤ 0) (hhi : q ≤ hi) :
    float_to_int lo hi (Flt.fin q) = .ok ⌊q⌋ := by
  have h1 : (0 : Int) ≤ ⌊q⌋ := Int.floor_nonneg.mpr h0
  have h2 : ⌊q⌋ ≤ hi := by
    have : (⌊q⌋ : ℚ) ≤ hi := le_trans (Int.floor_le q) hhi
    exact_mod_cast this
  simp only [float_to_int, trunc_nonneg q h0]
  rw [if_pos ⟨le_trans hlo h1, h2⟩]

theorem f32_le_of_le (x c : ℚ) (hc : f32 c = c) (h : x ≤ c) : f32 x ≤ c := by
  rw [← hc]
  exact f32_mono _ _ h

/-- The bar `make_progress_bar` builds once the number of filled cells is
known. -/
theorem make_progress_bar_of_filled (progress : Flt) (width filled : Int)
    (hc : to_int (progress.mul (Flt.ofInt width)) = .ok filled) (h0 : 0 ≤ filled) :
    make_progress_bar progress width = .ok (bar_text filled width) := by
  unfold make_progress_bar
  rw [hc]
  simp only [Except.bind, bind, str_fill, not_lt.mpr h0, if_false]
  by_cases hlt : filled < width
  · have hpos : width - filled > 0 := by omega
    have hnn : ¬ (width - filled - 1 < 0) := by omega
    simp [bar_text, hlt, hpos, hnn, pure, Except.pure]
  · simp [bar_text, hlt, pure, Except.pure]

/-- The number of filled cells for a progress in `[0,1]` and a width up to
`2^24`: the truncated `float` product lies in `0..width` and is the floor of
the exact product or one more. -/
theorem filled_cells_range (p : ℚ) (width : Int) (hp0 : 0 ≤ p) (hp1 : p ≤ 1)
    (hw0 : 0 ≤ width) (hw1 : width ≤ 16777216) :
    to_int ((Flt.fin p).mul (Flt.ofInt width)) = .ok ⌊f32 (p * (width : ℚ))⌋
      ∧ 0 ≤ ⌊f32 (p * (width : ℚ))⌋ ∧ ⌊f32 (p * (width : ℚ))⌋ ≤ width
      ∧ ⌊p * (width : ℚ)⌋ ≤ ⌊f32 (p * (width : ℚ))⌋
      ∧ ⌊f32 (p * (width : ℚ))⌋ ≤ ⌊p * (width : ℚ)⌋ + 1 := by
  have hwn : width.natAbs ≤ 16777216 := by omega
  have hfw : f32 (width : ℚ) = width := f32_int width hwn
  have hwq : (0 : ℚ) ≤ width := by exact_mod_cast hw0
  have h0 : 0 ≤ p * (width : ℚ) := mul_nonneg hp0 hwq
  have h1 : p * (width : ℚ) ≤ width := by nlinarith
  have hr0 : 0 ≤ f32 (p * (width : ℚ)) := f32_nonneg _ h0
  have hr1 : f32 (p * (width : ℚ)) ≤ width := f32_le_int _ width hwn h1
  have hf0 : (0 : Int) ≤ ⌊f32 (p * (width : ℚ))⌋ := Int.floor_nonneg.mpr hr0
  have hf1 : ⌊f32 (p * (width : ℚ))⌋ ≤ width := by
    have : (⌊f32 (p * (width : ℚ))⌋ : ℚ) ≤ width := le_trans (Int.floor_le _) hr1
    exact_mod_cast this
  have hx0 : (0 : Int) ≤ ⌊p * (width : ℚ)⌋ := Int.floor_nonneg.mpr h0
  have hx1 : ⌊p * (width : ℚ)⌋ ≤ width := by
    have : (⌊p * (width : ℚ)⌋ : ℚ) ≤ width := le_trans (Int.floor_le _) h1
    exact_mod_cast this
  have hmax : f32 (p * (width : ℚ)) ≤ FLT_MAX := by
    have : ((width : Int) : ℚ) ≤ 16777216 := by exact_mod_cast hw1
    unfold FLT_MAX
    linarith
  refine ⟨?_, hf0, hf1, ?_, ?_⟩
  · simp only [to_int, Flt.mul, Flt.ofInt, hfw, Flt.round_fin _ h0 hmax]
    apply float_to_int_ok _ _ _ hr0 (by decide)
    have : ((width : Int) : ℚ) ≤ (INT_MAX : Int) := by
      have : width ≤ INT_MAX := by unfold INT_MAX; omega
      exact_mod_cast this
    exact le_trans hr1 this
  · apply Int.le_floor.mpr
    exact f32_ge_int _ ⌊p * (width : ℚ)⌋ (by omega) (Int.floor_le _)
  · by_cases hlt : ⌊p * (width : ℚ)⌋ < width
    · have hb : f32 (p * (width : ℚ)) ≤ ((⌊p * (width : ℚ)⌋ + 1 : Int) : ℚ) :=
        f32_le_int _ (⌊p * (width : ℚ)⌋ + 1) (by omega)
          (by push_cast; exact le_of_lt (Int.lt_floor_add_one _))
      have : (⌊f32 (p * (width : ℚ))⌋ : ℚ) ≤ ((⌊p * (width : ℚ)⌋ + 1 : Int) : ℚ) :=
        le_trans (Int.floor_le _) hb
      exact_mod_cast this
    · omega

theorem make_progress_bar_ok (p : ℚ) (width : Int) (hp0 : 0 ≤ p) (hp1 : p ≤ 1)
    (hw0 : 0 ≤ width) (hw1 : width ≤ 16777216) :
    make_progress_bar (Flt.fin p) width = .ok (bar_text ⌊f32 (p * (width : ℚ))⌋ width)
      ∧ 0 ≤ ⌊f32 (p * (width : ℚ))⌋ ∧ ⌊f32 (p * (width : ℚ))⌋ ≤ width := by
  obtain ⟨hc, hf0, hf1, _, _⟩ := filled_cells_range p width hp0 hp1 hw0 hw1
  exact ⟨make_progress_bar_of_filled _ _ _ hc hf0, hf0, hf1⟩

theorem visible_plain_append (l r : List Char) (h : plain l) :
    visible_from false (l ++ r) = l.length + visible_from false r := by
  induction l with
  | nil => simp
  | cons c cs ih =>
    have hc := h c (List.mem_cons_self _ _)
    have hcs : plain cs := fun d hd => h d (List.mem_cons_of_mem _ hd)
    have ih2 := ih hcs
    simp only [List.cons_append, visible_from, hc.1, hc.2, if_false, List.length_cons]
    simp only [HAppend.hAppend, Append.append] at ih2
    rw [ih2]
    omega

theorem plain_replicate (n : Nat) (c : Char) (h1 : c ≠ '\x1b') (h2 : c ≠ '\r') :
    plain (List.replicate n c) := by
  intro d hd
  rw [List.eq_of_mem_replicate hd]
  exact ⟨h1, h2⟩

theorem bar_text_data (filled width : Int) :
    (bar_text filled width).data =
      if filled < width then
        '[' :: ESC_GREEN.data ++ (List.replicate filled.toNat '#' ++ ('|' :: ESC_GRAY.data
          ++ (List.replicate (width - filled - 1).toNat ' ' ++ (ESC_RESET.data ++ [']']))))
      else
        '[' :: ESC_GREEN.data ++ (List.replicate filled.toNat '#' ++ (ESC_RESET.data ++ [']'])) := by
  unfold bar_text
  split <;> simp [String.data_append]

theorem bar_text_visible (filled width : Int) (h0 : 0 ≤ filled) (h1 : filled ≤ width) :
    (visible_width (bar_text filled width) : Int) = width + 2 := by
  unfold visible_width
  rw [bar_text_data]
  generalize hn : (width - filled - 1).toNat = n
  generalize hf : filled.toNat = f
  have hh : plain (List.replicate f '#') := plain_replicate _ _ (by decide) (by decide)
  have hs : plain (List.replicate n ' ') := plain_replicate _ _ (by decide) (by decide)
  by_cases hlt : filled < width
  · simp only [hlt, if_true]
    simp only [ESC_GREEN, ESC_GRAY, ESC_RESET, List.cons_append, List.nil_append, visible_from]
    simp [visible_plain_append _ _ hh, visible_plain_append _ _ hs, visible_from]
    omega
  · simp only [hlt, if_false]
    simp only [ESC_GREEN, ESC_GRAY, ESC_RESET, List.cons_append, List.nil_append, visible_from]
    simp [visible_plain_append _ _ hh, visible_from]
    omega

theorem bar_text_last (filled width : Int) :
    (bar_text filled width).data.getLast? = some ']' := by
  rw [bar_text_data]
  split <;> simp only [← List.append_assoc, List.getLast?_concat]

theorem bar_text_counts (filled width : Int) (h0 : 0 ≤ filled) (h1 : filled ≤ width) :
    (count_char '#' (bar_text filled width) : Int) = filled
      ∧ count_char '|' (bar_text filled width) = (if filled < width then 1 else 0)
      ∧ (count_char ' ' (bar_text filled width) : Int)
        = width - filled - (if filled < width then 1 else 0)
      ∧ (bar_text filled width).data.head? = some '[' := by
  unfold count_char
  rw [bar_text_data]
  generalize hn : (width - filled - 1).toNat = n
  generalize hf : filled.toNat = f
  by_cases hlt : filled < width
  · simp only [hlt, if_true]
    simp [ESC_GREEN, ESC_GRAY, ESC_RESET, List.count_cons, List.count_replicate]
    omega
  · simp only [hlt, if_false]
    simp [ESC_GREEN, ESC_GRAY, ESC_RESET, List.count_cons, List.count_replicate]
    omega

theorem bar_text_visible_full (filled width : Int) (h0 : 0 ≤ filled) (h1 : width ≤ filled) :
    (visible_width (bar_text filled width) : Int) = filled + 2 := by
  unfold visible_width
  rw [bar_text_data]
  generalize hf : filled.toNat = f
  have hh : plain (List.replicate f '#') := plain_replicate _ _ (by decide) (by decide)
  simp only [not_lt.mpr h1, if_false]
  simp only [ESC_GREEN, ESC_GRAY, ESC_RESET, List.cons_append, List.nil_append, visible_from]
  simp [visible_plain_append _ _ hh, visible_from]
  omega

theorem bar_text_hashes (filled width : Int) (h0 : 0 ≤ filled) :
    (count_char '#' (bar_text filled width) : Int) = filled := by
  unfold count_char
  rw [bar_text_data]
  generalize hn : (width - filled - 1).toNat = n
  generalize hf : filled.toNat = f
  split
  · simp [ESC_GREEN, ESC_GRAY, ESC_RESET, List.count_cons, List.count_replicate]
    omega
  · simp [ESC_GREEN, ESC_GRAY, ESC_RESET, List.count_cons, List.count_replicate]
    omega

/-- Counterexample to C9: the product `progress * width` is a `float` product.
For progress `1.0f` and width 16777219 the width converts to 16777220.0f, the
bar has 16777220 filled cells and as many glyphs, not 16777219.  For progress
`0.7f` (11744051 / 2^24) and width 10 the product rounds to 7.0f and the bar
has 7 filled cells, while the floor of the exact product is 6. -/
theorem progress_bar_float_product :
    make_progress_bar (Flt.fin 1) 16777219 = .ok (bar_text 16777220 16777219)
      ∧ (count_char '#' (bar_text 16777220 16777219) : Int) = 16777220
      ∧ (visible_width (bar_text 16777220 16777219) : Int) = 1 + 16777220 + 1
      ∧ ⌊(1 : ℚ) * ((16777219 : Int) : ℚ)⌋ = 16777219
      ∧ make_progress_bar (Flt.fin (11744051 / 16777216)) 10
        = .ok "[\x1b[32m#######|\x1b[90m  \x1b[0m]"
      ∧ count_char '#' "[\x1b[32m#######|\x1b[90m  \x1b[0m]" = 7
      ∧ ⌊(11744051 / 16777216 : ℚ) * ((10 : Int) : ℚ)⌋ = 6 := by
  refine ⟨make_progress_bar_of_filled _ _ _ (by decide!) (by decide),
    bar_text_hashes _ _ (by decide), ?_, by decide!, by decide!, by decide, by decide!⟩
  rw [bar_text_visible_full _ _ (by decide) (by decide)]
  rfl

/-- C9, amended: for `progress` in `[0,1]` and a width from 10 to `2^24` (the
program passes 10 to 50), `make_progress_bar` returns a bar whose number of
filled cells `#` is the truncated single-precision product `progress * width`,
which is the floor of the exact product or one more; the bar is `[`, then
`width` visible glyphs (filled cells, boundary glyph, blanks; the escape
sequences take no column), then `]`; the boundary glyph `|` occurs exactly once
when the bar is not full and not at all when it is. -/
theorem progress_bar_geometry (p : ℚ) (width : Int) (hp0 : 0 ≤ p) (hp1 : p ≤ 1)
    (hw : 10 ≤ width) (hmax : width ≤ 16777216) :
    ∃ bar, make_progress_bar (Flt.fin p) width = .ok bar
      ∧ (count_char '#' bar : Int) = ⌊f32 (p * (width : ℚ))⌋
      ∧ ⌊p * (width : ℚ)⌋ ≤ (count_char '#' bar : Int)
      ∧ (count_char '#' bar : Int) ≤ ⌊p * (width : ℚ)⌋ + 1
      ∧ bar.data.head? = some '[' ∧ bar.data.getLast? = some ']'
      ∧ (visible_width bar : Int) = 1 + width + 1
      ∧ (count_char '#' bar : Int) + count_char '|' bar + count_char ' ' bar = width
      ∧ count_char '|' bar = (if (count_char '#' bar : Int) < width then 1 else 0) := by
  obtain ⟨hc, h0, h1, hlo, hhi⟩ := filled_cells_range p width hp0 hp1 (by omega) hmax
  obtain ⟨c1, c2, c3, c4⟩ := bar_text_counts ⌊f32 (p * (width : ℚ))⌋ width h0 h1
  refine ⟨_, make_progress_bar_of_filled _ _ _ hc h0, c1, by rw [c1]; exact hlo,
    by rw [c1]; exact hhi, c4, bar_text_last _ _, ?_, ?_, by rw [c1]; exact c2⟩
  · rw [bar_text_visible _ _ h0 h1]
    ring
  · rw [c1, c2, c3]
    split <;> simp

/-- Witness of C9: a half-filled bar of 10 cells. -/
theorem progress_bar_geometry_witness :
    ∃ bar, make_progress_bar (Flt.fin (1 / 2)) 10 = .ok bar
      ∧ (count_char '#' bar : Int) = ⌊f32 ((1 / 2 : ℚ) * ((10 : Int) : ℚ))⌋
      ∧ ⌊(1 / 2 : ℚ) * ((10 : Int) : ℚ)⌋ ≤ (count_char '#' bar : Int)
      ∧ (count_char '#' bar : Int) ≤ ⌊(1 / 2 : ℚ) * ((10 : Int) : ℚ)⌋ + 1
      ∧ bar.data.head? = some '[' ∧ bar.data.getLast? = some ']'
      ∧ (visible_width bar : Int) = 1 + 10 + 1
      ∧ (count_char '#' bar : Int) + count_char '|' bar + count_char ' ' bar = 10
      ∧ count_char '|' bar = (if (count_char '#' bar : Int) < 10 then 1 else 0) :=
  progress_bar_geometry (1 / 2) 10 (by norm_num) (by norm_num) (by decide) (by decide)

theorem digitChar_ascii (d : Nat) (h : d < 10) :
    Nat.digitChar d ≠ '\x1b' ∧ Nat.digitChar d ≠ '\r' ∧ (Nat.digitChar d).utf8Size = 1 := by
  interval_cases d <;> decide

theorem toDigitsCore_ascii (fuel n : Nat) (ds : List Char) (h : ascii_plain ds) :
    ascii_plain (Nat.toDigitsCore 10 fuel n ds) := by
  induction fuel generalizing n ds with
  | zero => simpa [Nat.toDigitsCore] using h
  | succ fuel ih =>
    have hd := digitChar_ascii (n % 10) (Nat.mod_lt _ (by decide))
    have hcons : ascii_plain (Nat.digitChar (n % 10) :: ds) := by
      intro c hc
      rcases List.mem_cons.mp hc with rfl | hc
      · exact hd
      · exact h c hc
    simp only [Nat.toDigitsCore]
    split
    · exact hcons
    · exact ih _ _ hcons

theorem nat_repr_ascii (n : Nat) : ascii_plain (toString n).data := by
  show ascii_plain (Nat.repr n).data
  simp only [Nat.repr, Nat.toDigits, List.asString]
  exact toDigitsCore_ascii _ _ _ (by intro c hc; simp at hc)

theorem ascii_plain_append (a b : List Char) (ha : ascii_plain a) (hb : ascii_plain b) :
    ascii_plain (a ++ b) := by
  intro c hc
  rcases List.mem_append.mp hc with h | h
  · exact ha c h
  · exact hb c h

theorem int_repr_ascii (n : Int) : ascii_plain (toString n).data := by
  cases n with
  | ofNat m => exact nat_repr_ascii m
  | negSucc m =>
    show ascii_plain (Int.repr (Int.negSucc m)).data
    simp only [Int.repr, String.data_append]
    refine ascii_plain_append _ _ (by intro c hc; simp at hc; subst hc; decide) ?_
    exact nat_repr_ascii _

theorem utf8_len_ascii (l : List Char) (h : ascii_plain l) : String.utf8ByteSize ⟨l⟩ = l.length := by
  induction l with
  | nil => rfl
  | cons c cs ih =>
    have hc := h c (List.mem_cons_self _ _)
    have hcs : ascii_plain cs := fun d hd => h d (List.mem_cons_of_mem _ hd)
    have ih2 := ih hcs
    simp only [String.utf8ByteSize, String.utf8ByteSize.go, List.length_cons] at ih2 ⊢
    rw [ih2, hc.2.2]

theorem ascii_plain_plain (l : List Char) (h : ascii_plain l) : plain l :=
  fun c hc => ⟨(h c hc).1, (h c hc).2.1⟩

theorem fixed1_ascii (q : ℚ) : ascii_plain (fixed1 q).data := by
  unfold fixed1
  simp only [String.data_append]
  refine ascii_plain_append _ _ (ascii_plain_append _ _ (ascii_plain_append _ _ ?_ ?_) ?_) ?_
  · split
    · intro c hc; simp at hc; subst hc; decide
    · intro c hc; simp at hc
  · exact nat_repr_ascii _
  · intro c hc; simp at hc; subst hc; decide
  · exact nat_repr_ascii _

theorem unit_name_ascii (u : Int) : ascii_plain (unit_name u).data := by
  unfold unit_name
  generalize u.toNat = n
  match n with
  | 0 => decide
  | 1 => decide
  | 2 => decide
  | 3 => decide
  | 4 => decide
  | n + 5 => simp [ascii_plain]

theorem format_size_ascii (b u : Int) : ascii_plain (format_size b u).data := by
  unfold format_size
  simp only [String.data_append]
  refine ascii_plain_append _ _ (ascii_plain_append _ _ (fixed1_ascii _) ?_) (unit_name_ascii _)
  intro c hc; simp at hc; subst hc; decide

theorem pad3_small : ∀ n : Nat, n < 101 →
    (pad3 (n : Int)).data.length = 3 ∧ plain (pad3 (n : Int)).data := by
  decide

theorem pad3_percent (percent : Int) (h0 : 0 ≤ percent) (h1 : percent ≤ 100) :
    (pad3 percent).data.length = 3 ∧ plain (pad3 percent).data := by
  obtain ⟨n, rfl⟩ := Int.eq_ofNat_of_zero_le h0
  exact pad3_small n (by omega)

theorem bar_text_visible_append (filled width : Int) (h0 : 0 ≤ filled) (h1 : filled ≤ width)
    (r : List Char) :
    (visible_from false ((bar_text filled width).data ++ r) : Int)
      = width + 2 + visible_from false r := by
  rw [bar_text_data]
  generalize hn : (width - filled - 1).toNat = n
  generalize hf : filled.toNat = f
  have hh : plain (List.replicate f '#') := plain_replicate _ _ (by decide) (by decide)
  have hs : plain (List.replicate n ' ') := plain_replicate _ _ (by decide) (by decide)
  by_cases hlt : filled < width
  · simp only [hlt, if_true]
    simp only [ESC_GREEN, ESC_GRAY, ESC_RESET, List.cons_append, List.nil_append, visible_from,
      List.append_assoc]
    simp [visible_plain_append _ _ hh, visible_plain_append _ _ hs, visible_from]
    omega
  · simp only [hlt, if_false]
    simp only [ESC_GREEN, ESC_GRAY, ESC_RESET, List.cons_append, List.nil_append, visible_from,
      List.append_assoc]
    simp [visible_plain_append _ _ hh, visible_from]
    omega

theorem status_line_visible (percent filled width : Int) (a b speed eta : String)
    (hp0 : 0 ≤ percent) (hp1 : percent ≤ 100) (h0 : 0 ≤ filled) (h1 : filled ≤ width)
    (ha : plain a.data) (hb : plain b.data) (hs : plain speed.data) (he : plain eta.data) :
    (visible_width (status_line percent (bar_text filled width) a b speed eta) : Int)
      = 15 + (a.length : Int) + b.length + speed.length + eta.length + width := by
  obtain ⟨hl, hpl⟩ := pad3_percent percent hp0 hp1
  have e1 : plain "% ".data := by decide
  have e2 : plain " ".data := by decide
  have e3 : plain "/".data := by decide
  have e4 : plain " eta ".data := by decide
  unfold visible_width status_line
  simp only [String.data_append, List.append_assoc]
  have hcr : ∀ r, visible_from false ("\r".data ++ r) = visible_from false r := by
    intro r; simp [visible_from]
  have hk : visible_from false "\x1b[K".data = 0 := by simp [visible_from]
  rw [hcr, visible_plain_append _ _ hpl, visible_plain_append _ _ e1]
  push_cast
  rw [bar_text_visible_append _ _ h0 h1, visible_plain_append _ _ e2, visible_plain_append _ _ ha,
    visible_plain_append _ _ e3, visible_plain_append _ _ hb, visible_plain_append _ _ e2,
    visible_plain_append _ _ hs, visible_plain_append _ _ e4, visible_plain_append _ _ he, hk, hl]
  have l1 : " ".data.length = 1 := rfl
  have l2 : "/".data.length = 1 := rfl
  have l3 : " eta ".data.length = 5 := rfl
  rw [l1, l2, l3]
  simp only [String.length, List.length_cons, List.length_nil]
  push_cast
  ring

theorem clamp_bar_width_range (term_width fixed : Int) :
    10 ≤ clamp_bar_width term_width fixed ∧ clamp_bar_width term_width fixed ≤ 50 := by
  unfold clamp_bar_width
  simp only
  split <;> split <;> omega

theorem render_line_ok (parts : LineParts) (term_width : Int) (q : ℚ)
    (hq : parts.progress = Flt.fin q) (hq0 : 0 ≤ q) (hq1 : q ≤ 1) :
    render_line parts term_width
      = .ok (status_line parts.percent
          (bar_text ⌊f32 (q * ((clamp_bar_width term_width parts.fixed_len : Int) : ℚ))⌋
            (clamp_bar_width term_width parts.fixed_len))
          parts.done_str parts.total_str parts.speed_str parts.eta_str) := by
  obtain ⟨h10, h50⟩ := clamp_bar_width_range term_width parts.fixed_len
  obtain ⟨hbar, _, _⟩ := make_progress_bar_ok q (clamp_bar_width term_width parts.fixed_len)
    hq0 hq1 (by omega) (by omega)
  unfold render_line
  simp only [hq, hbar]
  rfl

/-- The percentage of a progress in `[0,1]`: the truncated `float` product
`progress * 100` lies in `0..100`. -/
theorem percent_ok (q : ℚ) (hq0 : 0 ≤ q) (hq1 : q ≤ 1) :
    to_int ((Flt.fin q).mul (Flt.ofInt 100)) = .ok ⌊f32 (q * ((100 : Int) : ℚ))⌋
      ∧ 0 ≤ ⌊f32 (q * ((100 : Int) : ℚ))⌋ ∧ ⌊f32 (q * ((100 : Int) : ℚ))⌋ ≤ 100 := by
  obtain ⟨hc, h0, h1, _, _⟩ := filled_cells_range q 100 hq0 hq1 (by decide) (by decide)
  exact ⟨hc, h0, h1⟩

/-- The largest `float` below `2^63`, `(2^24 - 1) * 2^39`. -/
theorem f32_int64_top : f32 9223371487098961920 = 9223371487098961920 := by decide!

/-- The largest `std::int64_t` whose conversion to `float` is below `2^63`:
`2^63 - 2^38 - 1`. -/
theorem f32_int64_last : f32 9223371761976868863 = 9223371487098961920 := by decide!

/-- Line 440 for a progress in `[0,1]` and a total size whose `float` is below
`2^63`, that is up to `2^63 - 2^38 - 1`. -/
theorem downloaded_of_ok (ti : Option TorrentInfo) (status : TorrentStatus) (p : ℚ)
    (hp : status.progress = Flt.fin p) (hp0 : 0 ≤ p) (hp1 : p ≤ 1)
    (hs0 : 0 ≤ total_size_of ti) (hs1 : total_size_of ti ≤ 9223371761976868863) :
    downloaded_of ti status = .ok ⌊f32 (f32 (total_size_of ti : ℚ) * p)⌋
      ∧ 0 ≤ ⌊f32 (f32 (total_size_of ti : ℚ) * p)⌋ := by
  have hsq : (0 : ℚ) ≤ total_size_of ti := by exact_mod_cast hs0
  have hsq1 : ((total_size_of ti : Int) : ℚ) ≤ 9223371761976868863 := by exact_mod_cast hs1
  have hT0 : 0 ≤ f32 (total_size_of ti : ℚ) := f32_nonneg _ hsq
  have hT1 : f32 (total_size_of ti : ℚ) ≤ 9223371487098961920 := by
    have := f32_mono _ _ hsq1
    rwa [f32_int64_last] at this
  have hx0 : 0 ≤ f32 (total_size_of ti : ℚ) * p := mul_nonneg hT0 hp0
  have hx1 : f32 (total_size_of ti : ℚ) * p ≤ 9223371487098961920 := by nlinarith
  have hr0 : 0 ≤ f32 (f32 (total_size_of ti : ℚ) * p) := f32_nonneg _ hx0
  have hr1 : f32 (f32 (total_size_of ti : ℚ) * p) ≤ 9223371487098961920 :=
    f32_le_of_le _ _ f32_int64_top hx1
  refine ⟨?_, Int.floor_nonneg.mpr hr0⟩
  cases ti with
  | none =>
    simp only [total_size_of, Int.cast_zero, f32_zero, zero_mul, Int.floor_zero]
    rfl
  | some t =>
    simp only [downloaded_of, total_size_of, hp, Flt.ofInt, Flt.mul, to_int64] at *
    rw [Flt.round_fin _ hx0 (by unfold FLT_MAX; linarith)]
    apply float_to_int_ok _ _ _ hr0 (by decide)
    unfold INT64_MAX
    push_cast
    linarith

/-- The fields of the texts of a download pass, whatever their values. -/
theorem download_parts_fields (ti : Option TorrentInfo) (status : TorrentStatus)
    (parts : LineParts) (h : download_parts ti status = .ok parts) :
    ∃ downloaded, downloaded_of ti status = .ok downloaded
      ∧ to_int (status.progress.mul (Flt.ofInt 100)) = .ok parts.percent
      ∧ parts.progress = status.progress
      ∧ parts.done_str = format_size downloaded (get_size_unit (total_size_of ti))
      ∧ parts.total_str = format_size (total_size_of ti) (get_size_unit (total_size_of ti))
      ∧ parts.speed_str = format_size status.download_rate (-1) ++ "/s"
      ∧ parts.eta_str = download_eta downloaded (total_size_of ti) status.download_rate := by
  unfold download_parts at h
  cases hd : downloaded_of ti status with
  | error f => rw [hd] at h; cases h
  | ok downloaded =>
    cases hc : to_int (status.progress.mul (Flt.ofInt 100)) with
    | error f => rw [hd] at h; simp only [bind, Except.bind] at h; rw [hc] at h; cases h
    | ok percent =>
      rw [hd] at h
      simp only [bind, Except.bind] at h
      rw [hc] at h
      cases h
      exact ⟨downloaded, rfl, rfl, rfl, rfl, rfl, rfl, rfl⟩

theorem download_parts_exists (ti : Option TorrentInfo) (status : TorrentStatus) (p : ℚ)
    (hp : status.progress = Flt.fin p) (hp0 : 0 ≤ p) (hp1 : p ≤ 1)
    (hs0 : 0 ≤ total_size_of ti) (hs1 : total_size_of ti ≤ 9223371761976868863) :
    ∃ parts, download_parts ti status = .ok parts := by
  obtain ⟨hd, _⟩ := downloaded_of_ok ti status p hp hp0 hp1 hs0 hs1
  obtain ⟨hc, _, _⟩ := percent_ok p hp0 hp1
  unfold download_parts
  rw [hd]
  simp only [bind, Except.bind, hp, hc]
  exact ⟨_, rfl⟩

/-- The upload fraction of lines 533-534 is a value in `[0,1]` unless it is the
`NaN` of `0 / 0`. -/
theorem seeding_progress_ok (uploaded target_upload : Int) (hu : 0 ≤ uploaded)
    (ht : 0 ≤ target_upload) (hpos : 0 < target_upload ∨ 0 < uploaded) :
    ∃ r, seeding_progress uploaded target_upload = Flt.fin r ∧ 0 ≤ r ∧ r ≤ 1 := by
  have huq : (0 : ℚ) ≤ f32 (uploaded : ℚ) := f32_nonneg _ (by exact_mod_cast hu)
  unfold seeding_progress
  by_cases h0 : target_upload = 0
  · have hup : (0 : ℚ) < f32 (uploaded : ℚ) := f32_pos_of_int uploaded (by omega)
    refine ⟨1, ?_, by norm_num, le_refl _⟩
    simp [h0, Flt.ofInt, f32_zero, Flt.div, Flt.signed_inf, hup, Flt.gt]
  · have htp : (0 : ℚ) < f32 (target_upload : ℚ) := f32_pos_of_int target_upload (by omega)
    have hq : 0 ≤ f32 (uploaded : ℚ) / f32 (target_upload : ℚ) := div_nonneg huq (le_of_lt htp)
    have hr := f32_nonneg _ hq
    have hm : (0 : ℚ) ≤ FLT_MAX := by unfold FLT_MAX; norm_num
    simp only [Flt.ofInt, Flt.div, ne_of_gt htp, if_false, Flt.round]
    by_cases hov : f32 (f32 (uploaded : ℚ) / f32 (target_upload : ℚ)) > FLT_MAX
    · refine ⟨1, ?_, by norm_num, le_refl _⟩
      simp [hov, Flt.gt]
    · rw [if_neg hov, if_neg (not_lt.mpr (by linarith))]
      by_cases hgt : f32 (f32 (uploaded : ℚ) / f32 (target_upload : ℚ)) > 1
      · refine ⟨1, ?_, by norm_num, le_refl _⟩
        simp [Flt.gt, hgt]
      · refine ⟨_, ?_, hr, not_lt.mp hgt⟩
        simp [Flt.gt, hgt]

theorem seeding_progress_nan : seeding_progress 0 0 = Flt.nan := by decide!

/-- The fields of the texts of a seeding pass, whatever their values. -/
theorem seeding_parts_fields (target_upload : Int) (status : TorrentStatus)
    (parts : LineParts) (h : seeding_parts target_upload status = .ok parts) :
    to_int ((seeding_progress status.total_upload target_upload).mul (Flt.ofInt 100))
        = .ok parts.percent
      ∧ parts.progress = seeding_progress status.total_upload target_upload
      ∧ parts.done_str = format_size status.total_upload (get_size_unit target_upload)
      ∧ parts.total_str = format_size target_upload (get_size_unit target_upload)
      ∧ parts.speed_str = format_size status.upload_rate (-1) ++ "/s"
      ∧ parts.eta_str = seeding_eta status.total_upload target_upload status.upload_rate := by
  unfold seeding_parts at h
  simp only at h
  cases hc : to_int ((seeding_progress status.total_upload target_upload).mul
      (Flt.ofInt 100)) with
  | error f => rw [hc] at h; cases h
  | ok percent =>
    rw [hc] at h
    cases h
    exact ⟨rfl, rfl, rfl, rfl, rfl, rfl⟩

theorem seeding_parts_exists (target_upload : Int) (status : TorrentStatus)
    (hu : 0 ≤ status.total_upload) (ht : 0 ≤ target_upload)
    (hpos : 0 < target_upload ∨ 0 < status.total_upload) :
    ∃ parts, seeding_parts target_upload status = .ok parts := by
  obtain ⟨r, hr, hr0, hr1⟩ := seeding_progress_ok status.total_upload target_upload hu ht hpos
  obtain ⟨hc, _, _⟩ := percent_ok r hr0 hr1
  unfold seeding_parts
  simp only [hr, hc]
  exact ⟨_, rfl⟩

theorem f64_mono (x y : ℚ) (h : x ≤ y) : f64 x ≤ f64 y :=
  round_fmt_mono 53 (-1022) x y (by decide) h

/-- Integers of magnitude up to `2^53` are `double` values. -/
theorem f64_int (n : Int) (h : n.natAbs ≤ 9007199254740992) : f64 (n : ℚ) = n :=
  round_fmt_int 53 (-1022) n (by decide) (by decide) (by simpa using h)

/-- Comparing the `double` of an integer with an integer `c` in `0..2^53` is
comparing the integers. -/
theorem f64_int_le_iff (b c : Int) (hc0 : 0 ≤ c) (hc1 : c ≤ 9007199254740992) :
    (c : ℚ) ≤ f64 (b : ℚ) ↔ c ≤ b := by
  constructor
  · intro h
    by_contra hlt
    have hb : (b : ℚ) ≤ ((c - 1 : Int) : ℚ) := by
      have : b ≤ c - 1 := by omega
      exact_mod_cast this
    have h1 := f64_mono _ _ hb
    rw [f64_int (c - 1) (by omega)] at h1
    have : ((c - 1 : Int) : ℚ) < c := by push_cast; linarith
    linarith
  · intro h
    have h1 := f64_mono (c : ℚ) (b : ℚ) (by exact_mod_cast h)
    rwa [f64_int c (by omega)] at h1

/-- Dividing a `double` of at least 1024 by 1024 is exact. -/
theorem div1024_exact (x : ℚ) (hr : representable 53 (-1022) x) (hx : 1024 ≤ x) :
    div1024 x = x / 1024 ∧ representable 53 (-1022) (x / 1024) := by
  obtain ⟨m, k, hm, hk, h | h⟩ := hr
  · have hk10 : (10 : Int) < 53 + k := by
      have h1 : (2 : ℚ) ^ (10 : Int) ≤ (m : ℚ) * 2 ^ k := by
        rw [← h]; norm_num; exact hx
      have h2 : (m : ℚ) * 2 ^ k < 2 ^ ((53 : Int) + k) := by
        rw [zpow_add₀ (by norm_num)]
        have : (m : ℚ) < 2 ^ (53 : Int) := by
          have h3 : (m : ℚ) < ((2 ^ 53 : Nat) : ℚ) := by exact_mod_cast hm
          have h4 : (2 : ℚ) ^ (53 : Int) = ((2 ^ 53 : Nat) : ℚ) := by norm_num
          rw [h4]
          exact h3
        exact mul_lt_mul_of_pos_right this (two_zpow_pos k)
      exact (zpow_lt_zpow_iff_right₀ (by norm_num : (1 : ℚ) < 2)).mp (lt_of_le_of_lt h1 h2)
    have hrep : representable 53 (-1022) (x / 1024) := by
      refine ⟨m, k - 10, hm, by push_cast at hk ⊢; omega, Or.inl ?_⟩
      rw [h, zpow_sub₀ (by norm_num)]
      norm_num
      ring
    exact ⟨round_fmt_exact _ _ _ hrep, hrep⟩
  · have : x ≤ 0 := by
      rw [h]
      exact neg_nonpos.mpr (mul_nonneg (Nat.cast_nonneg _) (le_of_lt (two_zpow_pos k)))
    linarith

/-- What `scale_loop` returns: started on a `double` with headroom `n` at index
`u`, it stops at an index `u + j` after `j ≤ n` exact divisions, every value
before the last was at least 1024, and the last is below 1024 unless the
headroom was used up. -/
theorem scale_loop_spec (n : Nat) (size : ℚ) (u : Int) (hr : representable 53 (-1022) size) :
    ∃ j : Nat, j ≤ n ∧ scale_loop n size u = (size / 1024 ^ j, u + j)
      ∧ (∀ i : Nat, i < j → 1024 ≤ size / 1024 ^ i)
      ∧ (j < n → size / 1024 ^ j < 1024) := by
  induction n generalizing size u with
  | zero => exact ⟨0, le_refl _, by simp [scale_loop], by simp, by simp⟩
  | succ n ih =>
    by_cases h : size ≥ 1024
    · obtain ⟨hd, hrep⟩ := div1024_exact size hr h
      obtain ⟨j, hj, heq, hall, hlt⟩ := ih (size / 1024) (u + 1) hrep
      refine ⟨j + 1, by omega, ?_, ?_, ?_⟩
      · simp only [scale_loop, h, if_true, hd, heq]
        congr 1
        · rw [pow_succ, div_div, mul_comm]
        · push_cast; ring
      · intro i hi
        cases i with
        | zero => simpa using h
        | succ i =>
          have := hall i (by omega)
          rwa [pow_succ, mul_comm, ← div_div]
      · intro hj2
        have := hlt (by omega)
        rwa [pow_succ, mul_comm, ← div_div]
    · refine ⟨0, by omega, by simp [scale_loop, h], by simp, ?_⟩
      intro _
      simpa using lt_of_not_ge h

/-- Comparing `to_double b / 1024^i` with 1024, for `i ≤ 4`, is comparing
`b / 1024^i` with 1024. -/
theorem scaled_ge_iff (b : Int) (i : Nat) (hi : i ≤ 4) :
    (1024 ≤ to_double b / 1024 ^ i ↔ (1024 : ℚ) ≤ (b : ℚ) / 1024 ^ i) := by
  have hpos : (0 : ℚ) < 1024 ^ i := by positivity
  have hc0 : (0 : Int) ≤ 1024 ^ (i + 1) := by positivity
  have hc1 : (1024 : Int) ^ (i + 1) ≤ 9007199254740992 := by
    interval_cases i <;> norm_num
  have key := f64_int_le_iff b (1024 ^ (i + 1)) hc0 hc1
  unfold to_double
  rw [le_div_iff₀ hpos, le_div_iff₀ hpos, ← pow_succ']
  constructor
  · intro h
    have := key.mp (by push_cast; exact h)
    exact_mod_cast this
  · intro h
    have := key.mpr (by exact_mod_cast h)
    push_cast at this
    exact this

/-- C10 (unit selection): for every byte count `b` (in particular `b ≥ 0`),
`get_size_unit b` and `format_size b` select the same index `k` in `0..4`, equal
to the number of divisions by 1024 made while the value was at least 1024 (every
earlier value `b / 1024^i`, `i < k`, is `≥ 1024`); the scaled value `b / 1024^k`
is `< 1024` when `k < 4` and `≥ 1` when `k > 0`; the unit is the `k`-th of
B, KB, MB, GB, TB and the index never exceeds 4: at `b = 1024^5` the unit is TB
and the scaled value is 1024.  The value printed is the `double` of `b` divided
by `1024^k`, which is `b / 1024^k` itself when `|b| ≤ 2^53`. -/
theorem unit_selection :
    (∀ b : Int, ∃ k : Nat, k ≤ 4 ∧ get_size_unit b = k
      ∧ format_size_scaled b (-1) = (to_double b / 1024 ^ k, (k : Int))
      ∧ format_size b (-1)
        = fixed1 (to_double b / 1024 ^ k) ++ " " ++ (["B", "KB", "MB", "GB", "TB"].getD k "")
      ∧ (b.natAbs ≤ 9007199254740992 → to_double b = b)
      ∧ (∀ i : Nat, i < k → 1024 ≤ (b : ℚ) / 1024 ^ i)
      ∧ (k < 4 → (b : ℚ) / 1024 ^ k < 1024)
      ∧ (0 < k → 1 ≤ (b : ℚ) / 1024 ^ k))
    ∧ get_size_unit 1125899906842624 = 4
    ∧ format_size_scaled 1125899906842624 (-1) = (1024, 4)
    ∧ format_size 1125899906842624 (-1) = "1024.0 TB"
    ∧ format_size 9007254230322381 (-1) = "8192.0 TB" := by
  refine ⟨fun b => ?_, by decide!, by decide!, by decide!, by decide!⟩
  obtain ⟨k, hk, heq, hall, hlt⟩ := scale_loop_spec 4 (to_double b) 0
    (round_fmt_representable 53 (-1022) _ (by decide))
  have hs : format_size_scaled b (-1) = (to_double b / 1024 ^ k, (k : Int)) := by
    simp [format_size_scaled, heq]
  have hall2 : ∀ i : Nat, i < k → 1024 ≤ (b : ℚ) / 1024 ^ i := fun i hi =>
    (scaled_ge_iff b i (by omega)).mp (hall i hi)
  refine ⟨k, hk, by simp [get_size_unit, heq], hs, ?_, fun h => f64_int b h, hall2, ?_, ?_⟩
  · simp only [format_size, hs, unit_name, Int.toNat_ofNat]
    rfl
  · intro hk4
    have h1 := hlt hk4
    by_contra hc
    exact absurd ((scaled_ge_iff b k (by omega)).mpr (not_lt.mp hc)) (not_le.mpr h1)
  · intro hk0
    have h1 := hall2 (k - 1) (by omega)
    have h2 : (b : ℚ) / 1024 ^ k = (b : ℚ) / 1024 ^ (k - 1) / 1024 := by
      have : k = (k - 1) + 1 := by omega
      conv_lhs => rw [this, pow_succ]
      rw [div_div]
    rw [h2]
    rw [le_div_iff₀ (by norm_num)]
    linarith

theorem utf8_len_ge (l : List Char) : l.length ≤ String.utf8ByteSize ⟨l⟩ := by
  induction l with
  | nil => simp [String.utf8ByteSize, String.utf8ByteSize.go]
  | cons c cs ih =>
    have hc : 0 < c.utf8Size := Char.utf8Size_pos c
    simp only [String.utf8ByteSize, String.utf8ByteSize.go, List.length_cons] at ih ⊢
    omega

theorem string_bytes_ascii (s : String) (h : ascii_plain s.data) : s.utf8ByteSize = s.length :=
  utf8_len_ascii s.data h

theorem string_bytes_ge (s : String) : s.length ≤ s.utf8ByteSize := utf8_len_ge s.data

/-- The text `format_time` returns when it does not return the infinity
symbol. -/
theorem format_time_finite (seconds : Int) (h0 : 0 ≤ seconds) (h1 : seconds ≤ 86400 * 365) :
    ascii_plain (format_time seconds).data
      ∧ (format_time seconds).data.getLast? = some 's' := by
  have hc : ¬ (seconds < 0 ∨ seconds > 86400 * 365) := by omega
  have hs : ascii_plain "s".data := by decide
  have hh : ascii_plain "h ".data := by decide
  have hm : ascii_plain "m ".data := by decide
  unfold format_time
  simp only [hc, if_false]
  split
  · refine ⟨?_, ?_⟩
    · simp only [String.data_append]
      exact ascii_plain_append _ _ (ascii_plain_append _ _ (ascii_plain_append _ _
        (ascii_plain_append _ _ (ascii_plain_append _ _ (int_repr_ascii _) hh)
          (int_repr_ascii _)) hm) (int_repr_ascii _)) hs
    · simp only [String.data_append]
      exact List.getLast?_concat _
  · split
    · refine ⟨?_, ?_⟩
      · simp only [String.data_append]
        exact ascii_plain_append _ _ (ascii_plain_append _ _ (ascii_plain_append _ _
          (int_repr_ascii _) hm) (int_repr_ascii _)) hs
      · simp only [String.data_append]
        exact List.getLast?_concat _
    · refine ⟨?_, ?_⟩
      · simp only [String.data_append]
        exact ascii_plain_append _ _ (int_repr_ascii _) hs
      · simp only [String.data_append]
        exact List.getLast?_concat _

theorem format_time_infinite (seconds : Int) (h : seconds < 0 ∨ 86400 * 365 < seconds) :
    format_time seconds = "∞" := by
  unfold format_time
  rw [if_pos h]

theorem format_time_plain (seconds : Int) : plain (format_time seconds).data := by
  by_cases hc : seconds < 0 ∨ 86400 * 365 < seconds
  · rw [format_time_infinite seconds hc]
    decide
  · exact ascii_plain_plain _ (format_time_finite seconds (by omega) (by omega)).1

theorem download_eta_plain (downloaded total rate : Int) :
    plain (download_eta downloaded total rate).data := by
  unfold download_eta
  split
  · exact format_time_plain _
  · decide

theorem seeding_eta_plain (uploaded target_upload rate : Int) :
    plain (seeding_eta uploaded target_upload rate).data := by
  unfold seeding_eta
  simp only
  split
  · split
    · exact format_time_plain _
    · decide
  · decide

theorem speed_ascii (rate : Int) : ascii_plain (format_size rate (-1) ++ "/s").data := by
  simp only [String.data_append]
  exact ascii_plain_append _ _ (format_size_ascii _ _) (by decide)

/-- C5, at the failing input `curlent <magnet>` (ratio 2.0, not quiet) on a
torrent of total size 0 with nothing uploaded: the ratio of the seeding pass is
0 and the target is 0, as the claim says, but the upload fraction
`uploaded / target_upload` is `0 / 0`; the pass then converts `NaN` to `int`
and the run does not return.  A target of 0 also comes from a total size of 1
and a ratio of 0.5. -/
theorem empty_content_divides_by_zero :
    seeding_tick env_empty opts_magnet_seed 0 0 ⟨9, []⟩
        = .fault .float_to_int ⟨12, [.status_query]⟩
      ∧ to_int64 ((Flt.ofInt (total_size_of (some empty_info))).mul opts_magnet_seed.seed_ratio)
        = .ok 0
      ∧ Flt.ofInt 0 = Flt.fin 0
      ∧ (Flt.ofInt status_seeding.total_upload).div (Flt.ofInt 0) = Flt.nan
      ∧ seeding_progress status_seeding.total_upload 0 = Flt.nan
      ∧ seeding_parts 0 status_seeding = .error .float_to_int
      ∧ to_int64 ((Flt.ofInt 1).mul (Flt.fin (1 / 2))) = .ok 0
      ∧ (download_torrent 1 env_empty opts_magnet_seed).fault_of = some .float_to_int
      ∧ (download_torrent 1 env_empty opts_magnet_seed).code = none := by
  decide!

theorem format_time_ne_infinity (seconds : Int) (h0 : 0 ≤ seconds)
    (h1 : seconds ≤ 86400 * 365) : format_time seconds ≠ "∞" := by
  intro h
  have := (format_time_finite seconds h0 h1).2
  rw [h] at this
  exact absurd this (by decide)

/-- Counterexample to C7.  Download pass: a torrent of 1073741823 bytes at
progress 1.0 is shown as `1024.0 MB/1024.0 MB`; the first number is 1073741824,
the larger of the two, and its unit is GB.  Seeding pass: with total size 0,
ratio 2.0 and 5000 bytes uploaded the render step is reached; the target is 0,
both numbers are printed in bytes, while the larger of the two, 5000, has the
unit KB. -/
theorem seeding_pair_unit_of_target :
    downloaded_of (some short_gib_info) status_done = .ok 1073741824
      ∧ (download_parts (some short_gib_info) status_done).map LineParts.done_str
          = .ok "1024.0 MB"
      ∧ (download_parts (some short_gib_info) status_done).map LineParts.total_str
          = .ok "1024.0 MB"
      ∧ get_size_unit 1073741823 = 2
      ∧ get_size_unit (max 1073741824 1073741823) = 3
      ∧ format_size 1073741824 (get_size_unit (max 1073741824 1073741823)) = "1.0 GB"
      ∧ seeding_tick env_empty_uploaded opts_magnet_seed 0 0 ⟨9, []⟩
        = .next ⟨12, [.status_query,
            .err ("\r100% [\x1b[32m######################################\x1b[0m] "
              ++ "5000.0 B/0.0 B 0.0 B/s eta --:--\x1b[K"), .sleep]⟩
      ∧ (seeding_parts 0 status_uploaded_5000).map LineParts.done_str = .ok "5000.0 B"
      ∧ (seeding_parts 0 status_uploaded_5000).map LineParts.total_str = .ok "0.0 B"
      ∧ get_size_unit 0 = 0
      ∧ get_size_unit (max 5000 0) = 1
      ∧ format_size 5000 (get_size_unit (max 5000 0)) = "4.9 KB" := by
  decide!

/-- The unit index in integers: `get_size_unit b` is the number `k ≤ 4` of powers
of 1024 that `b` reaches. -/
theorem get_size_unit_spec (b : Int) :
    ∃ k : Nat, k ≤ 4 ∧ get_size_unit b = k
      ∧ (∀ i : Nat, i < k → (1024 : Int) ^ (i + 1) ≤ b)
      ∧ (k < 4 → b < (1024 : Int) ^ (k + 1)) := by
  obtain ⟨k, hk, heq, hall, hlt⟩ := scale_loop_spec 4 (to_double b) 0
    (round_fmt_representable 53 (-1022) _ (by decide))
  refine ⟨k, hk, by simp [get_size_unit, heq], ?_, ?_⟩
  · intro i hi
    have h1 := (scaled_ge_iff b i (by omega)).mp (hall i hi)
    rw [le_div_iff₀ (by positivity), ← pow_succ'] at h1
    exact_mod_cast h1
  · intro hk4
    by_contra hc
    have h2 : (1024 : ℚ) ≤ (b : ℚ) / 1024 ^ k := by
      rw [le_div_iff₀ (by positivity), ← pow_succ']
      exact_mod_cast not_lt.mp hc
    exact absurd ((scaled_ge_iff b k (by omega)).mpr h2) (not_le.mpr (hlt hk4))

/-- The unit index of `a` is at most that of `b` when `b` reaches every power of
1024 that `a` reaches. -/
theorem get_size_unit_le (a b : Int)
    (h : ∀ j : Nat, j < 4 → (1024 : Int) ^ (j + 1) ≤ a → (1024 : Int) ^ (j + 1) ≤ b) :
    get_size_unit a ≤ get_size_unit b := by
  obtain ⟨ka, hka, ea, halla, _⟩ := get_size_unit_spec a
  obtain ⟨kb, hkb, eb, _, hltb⟩ := get_size_unit_spec b
  rw [ea, eb]
  by_contra hc
  have hlt : kb < ka := by
    have : ¬ ((ka : Int) ≤ kb) := hc
    omega
  have h1 := h (ka - 1) (by omega) (halla (ka - 1) (by omega))
  have h2 := hltb (by omega)
  have h3 : (1024 : Int) ^ (kb + 1) ≤ 1024 ^ (ka - 1 + 1) :=
    pow_le_pow_right₀ (by norm_num) (by omega)
  omega

theorem get_size_unit_mono (a b : Int) (h : a ≤ b) : get_size_unit a ≤ get_size_unit b :=
  get_size_unit_le a b (fun _ _ hj => le_trans hj h)

/-- The powers of 1024 up to `1024^4` are `float` values. -/
theorem f32_pow1024 (j : Nat) (hj : j < 4) :
    f32 (((1024 : Int) ^ (j + 1) : Int) : ℚ) = (((1024 : Int) ^ (j + 1) : Int) : ℚ) := by
  interval_cases j <;> decide!

/-- Conversion to `float` keeps an integer on its side of every power of 1024. -/
theorem f32_ge_pow1024 (u : Int) (j : Nat) (hj : j < 4) (h : (1024 : Int) ^ (j + 1) ≤ u) :
    (((1024 : Int) ^ (j + 1) : Int) : ℚ) ≤ f32 (u : ℚ) := by
  have h1 := f32_mono (((1024 : Int) ^ (j + 1) : Int) : ℚ) (u : ℚ) (by exact_mod_cast h)
  rwa [f32_pow1024 j hj] at h1


/-- A finite result of `Flt.round`. -/
theorem Flt.round_eq_fin (x q : ℚ) (h : Flt.round x = Flt.fin q) : q = f32 x := by
  unfold Flt.round at h
  split at h
  · cases h
  · split at h
    · cases h
    · cases h; rfl

/-- A converted product: `static_cast<std::int64_t>(a * b)` of two `float`s with
a non-negative rounded product. -/
theorem to_int64_mul_ok (a b : ℚ) (n : Int) (h0 : 0 ≤ f32 (a * b))
    (h : to_int64 ((Flt.fin a).mul (Flt.fin b)) = .ok n) : n = ⌊f32 (a * b)⌋ := by
  simp only [Flt.mul, to_int64] at h
  cases hr : Flt.round (a * b) with
  | fin q =>
    rw [hr] at h
    have hq := Flt.round_eq_fin _ _ hr
    subst hq
    simp only [float_to_int, trunc_nonneg _ h0] at h
    split at h
    · cases h; rfl
    · cases h
  | pinf => rw [hr] at h; cases h
  | ninf => rw [hr] at h; cases h
  | nan => rw [hr] at h; cases h

/-- A seeding pass that goes on to the render step with a positive total size
and a `float` ratio `r`: the target reaches every power of 1024 that the
uploaded count reaches. -/
theorem uploaded_unit_le_target (total_size uploaded target_upload : Int) (r : ℚ)
    (hsize : 0 < total_size) (hu : 0 ≤ uploaded) (hr : f32 r = r)
    (htarget : to_int64 ((Flt.ofInt total_size).mul (Flt.fin r)) = .ok target_upload)
    (hratio : (if total_size > 0 then (Flt.ofInt uploaded).div (Flt.ofInt total_size)
      else Flt.fin 0).ge (Flt.fin r) = false)
    (j : Nat) (hj : j < 4) (hc : (1024 : Int) ^ (j + 1) ≤ uploaded) :
    (1024 : Int) ^ (j + 1) ≤ target_upload := by
  have hT : (0 : ℚ) < f32 (total_size : ℚ) := f32_pos_of_int total_size hsize
  have hU : (0 : ℚ) ≤ f32 (uploaded : ℚ) := f32_nonneg _ (by exact_mod_cast hu)
  have hq : 0 ≤ f32 (uploaded : ℚ) / f32 (total_size : ℚ) := div_nonneg hU (le_of_lt hT)
  simp only [hsize, if_true, Flt.ofInt, Flt.div, ne_of_gt hT, if_false] at hratio
  have hlt : f32 (uploaded : ℚ) / f32 (total_size : ℚ) < r := by
    by_contra hge
    have h1 := f32_mono _ _ (not_lt.mp hge)
    rw [hr] at h1
    unfold Flt.round at hratio
    split at hratio
    · simp [Flt.ge] at hratio
    · split at hratio
      · have := f32_nonneg _ hq
        have hm : (0 : ℚ) ≤ FLT_MAX := by unfold FLT_MAX; norm_num
        linarith
      · simp only [Flt.ge, decide_eq_false_iff_not, not_le] at hratio
        linarith
  rw [div_lt_iff₀ hT] at hlt
  have h2 : f32 (uploaded : ℚ) ≤ f32 (f32 (total_size : ℚ) * r) := by
    have := f32_mono _ _ (le_of_lt hlt)
    rw [f32_idem] at this
    rw [mul_comm]
    exact this
  have h0 : 0 ≤ f32 (f32 (total_size : ℚ) * r) := le_trans hU h2
  have ht := to_int64_mul_ok _ _ _ h0 htarget
  rw [ht]
  apply Int.le_floor.mpr
  exact le_trans (f32_ge_pow1024 uploaded j hj hc) h2

/-- With a total size of zero the target is zero. -/
theorem target_of_empty (r : ℚ) (target_upload : Int)
    (htarget : to_int64 ((Flt.ofInt 0).mul (Flt.fin r)) = .ok target_upload) :
    target_upload = 0 := by
  have h0 : f32 (f32 ((0 : Int) : ℚ) * r) = 0 := by
    rw [Int.cast_zero, f32_zero, zero_mul, f32_zero]
  have := to_int64_mul_ok _ _ _ (le_of_eq h0.symm) htarget
  rw [this, h0]
  exact Int.floor_zero

/-- Line 440 stays within the total size when the total size is a `float`
value. -/
theorem downloaded_le_total (total : Int) (p : ℚ) (h0 : 0 ≤ total) (hp1 : p ≤ 1)
    (hf : f32 (total : ℚ) = total) : ⌊f32 (f32 (total : ℚ) * p)⌋ ≤ total := by
  have hq : (0 : ℚ) ≤ total := by exact_mod_cast h0
  have h1 : f32 (f32 (total : ℚ) * p) ≤ total := by
    apply f32_le_of_le _ _ hf
    rw [hf]
    nlinarith
  have : (⌊f32 (f32 (total : ℚ) * p)⌋ : ℚ) ≤ total := le_trans (Int.floor_le _) h1
  exact_mod_cast this


/-- C7, amended: the two numbers of a pair are formatted with one unit, the one
`get_size_unit` selects for the second number: `total` in the download pass,
`target_upload` in the seeding pass.  In the download pass (progress in `[0,1]`,
total size `≥ 0`) the first number is the truncated `float` product
`total * progress`; it is at most `total` when `total` is a `float` value (every
size up to `2^24` is), and the unit is that of the larger of the two unless the
conversion of `total` to `float` carries it up to a power of 1024.  In a seeding
pass that reaches the render step with a total size `> 0` the unit is that of
the larger of the two.  (With total size 0 the target is 0 and the unit is B
whatever has been uploaded.) -/
theorem pair_shares_unit (ti : Option TorrentInfo) (status : TorrentStatus) (p r : ℚ)
    (total_size target_upload : Int)
    (hp : status.progress = Flt.fin p) (hp0 : 0 ≤ p) (hp1 : p ≤ 1)
    (hs0 : 0 ≤ total_size_of ti) (hs1 : total_size_of ti ≤ 9223371761976868863)
    (hu : 0 ≤ status.total_upload) (hr : f32 r = r)
    (htarget : to_int64 ((Flt.ofInt total_size).mul (Flt.fin r)) = .ok target_upload)
    (hratio : (if total_size > 0 then (Flt.ofInt status.total_upload).div (Flt.ofInt total_size)
      else Flt.fin 0).ge (Flt.fin r) = false) :
    (∃ parts, download_parts ti status = .ok parts
        ∧ parts.done_str = format_size ⌊f32 (f32 (total_size_of ti : ℚ) * p)⌋
            (get_size_unit (total_size_of ti))
        ∧ parts.total_str = format_size (total_size_of ti) (get_size_unit (total_size_of ti))
        ∧ (f32 (total_size_of ti : ℚ) = total_size_of ti →
            ⌊f32 (f32 (total_size_of ti : ℚ) * p)⌋ ≤ total_size_of ti)
        ∧ ((∀ j : Nat, j < 4 → (((1024 : Int) ^ (j + 1) : Int) : ℚ) ≤ f32 (total_size_of ti : ℚ)
              → (1024 : Int) ^ (j + 1) ≤ total_size_of ti) →
            get_size_unit (total_size_of ti)
              = get_size_unit (max ⌊f32 (f32 (total_size_of ti : ℚ) * p)⌋ (total_size_of ti))))
      ∧ (∀ parts, seeding_parts target_upload status = .ok parts →
          parts.done_str = format_size status.total_upload (get_size_unit target_upload)
          ∧ parts.total_str = format_size target_upload (get_size_unit target_upload)
          ∧ (0 < total_size →
            get_size_unit target_upload = get_size_unit (max status.total_upload target_upload))
          ∧ (total_size = 0 → get_size_unit target_upload = 0))
      ∧ (0 < target_upload → ∃ parts, seeding_parts target_upload status = .ok parts) := by
  refine ⟨?_, ?_, fun ht =>
    seeding_parts_exists target_upload status hu (le_of_lt ht) (Or.inl ht)⟩
  · obtain ⟨parts, hparts⟩ := download_parts_exists ti status p hp hp0 hp1 hs0 hs1
    obtain ⟨d, hd, _, _, h3, h4, _, _⟩ := download_parts_fields ti status parts hparts
    obtain ⟨hd2, _⟩ := downloaded_of_ok ti status p hp hp0 hp1 hs0 hs1
    rw [hd2] at hd
    cases hd
    refine ⟨parts, hparts, h3, h4, downloaded_le_total _ p hs0 hp1, ?_⟩
    intro hb
    rcases le_total ⌊f32 (f32 (total_size_of ti : ℚ) * p)⌋ (total_size_of ti) with hle | hle
    · rw [max_eq_right hle]
    · rw [max_eq_left hle]
      apply le_antisymm (get_size_unit_mono _ _ hle)
      apply get_size_unit_le
      intro j hj hc
      apply hb j hj
      have hT0 : 0 ≤ f32 (total_size_of ti : ℚ) := f32_nonneg _ (by exact_mod_cast hs0)
      have h1 : (((1024 : Int) ^ (j + 1) : Int) : ℚ) ≤ f32 (f32 (total_size_of ti : ℚ) * p) :=
        Int.le_floor.mp hc
      have h2 := f32_mono (f32 (total_size_of ti : ℚ) * p) (f32 (total_size_of ti : ℚ))
        (by nlinarith)
      rw [f32_idem] at h2
      exact le_trans h1 h2
  · intro parts hparts
    obtain ⟨_, _, h1, h2, _, _⟩ := seeding_parts_fields target_upload status parts hparts
    refine ⟨h1, h2, ?_, ?_⟩
    · intro hsize
      rcases le_total status.total_upload target_upload with hle | hle
      · rw [max_eq_right hle]
      · rw [max_eq_left hle]
        exact le_antisymm
          (get_size_unit_mono _ _ hle)
          (get_size_unit_le _ _ (fun j hj hc =>
            uploaded_unit_le_target total_size _ target_upload r hsize hu hr htarget hratio
              j hj hc))
    · intro h0
      subst h0
      rw [target_of_empty r target_upload htarget]
      decide!

/-- Witness of C7: 512 MiB of 1 GiB downloaded are shown as `0.5 GB/1.0 GB` at
50 percent, and 1 MiB uploaded of a 2 MiB target as `1.0 MB/2.0 MB`. -/
theorem pair_shares_unit_witness :
    download_parts (some gib_info) status_half
        = .ok { percent := 50, progress := Flt.fin (1 / 2), done_str := "0.5 GB",
                total_str := "1.0 GB", speed_str := "1.0 MB/s", eta_str := "8m 32s" }
      ∧ get_size_unit (max 536870912 1073741824) = 3
      ∧ (∃ parts, download_parts (some gib_info) status_half = .ok parts
        ∧ parts.done_str = format_size ⌊f32 (f32 ((1073741824 : Int) : ℚ) * (1 / 2))⌋
            (get_size_unit 1073741824)
        ∧ parts.total_str = format_size 1073741824 (get_size_unit 1073741824)
        ∧ ⌊f32 (f32 ((1073741824 : Int) : ℚ) * (1 / 2))⌋ ≤ 1073741824
        ∧ get_size_unit 1073741824
            = get_size_unit (max ⌊f32 (f32 ((1073741824 : Int) : ℚ) * (1 / 2))⌋ 1073741824))
      ∧ (∀ parts, seeding_parts 2097152 { status_half with total_upload := 1048576 } = .ok parts →
          parts.done_str = format_size 1048576 (get_size_unit 2097152)
          ∧ parts.total_str = format_size 2097152 (get_size_unit 2097152)
          ∧ get_size_unit 2097152 = get_size_unit (max 1048576 2097152))
      ∧ (seeding_parts 2097152 { status_half with total_upload := 1048576 }).map
          (fun parts => (parts.done_str, parts.total_str)) = .ok ("1.0 MB", "2.0 MB") :=
  have h := pair_shares_unit (some gib_info) { status_half with total_upload := 1048576 }
    (1 / 2) 2 1048576 2097152 rfl (by norm_num) (by norm_num) (by decide) (by decide)
    (by decide) (by decide!) (by decide!) (by decide!)
  have hd := h.1
  ⟨by decide!, by decide!,
    hd.elim fun parts hparts => ⟨parts, hparts.1, hparts.2.1, hparts.2.2.1,
      hparts.2.2.2.1 (by decide!),
      hparts.2.2.2.2 (fun j hj => by interval_cases j <;> decide!)⟩,
    fun parts hp =>
    ⟨(h.2.1 parts hp).1, (h.2.1 parts hp).2.1, (h.2.1 parts hp).2.2.1 (by decide)⟩, by decide!⟩

theorem render_line_width (parts : LineParts) (term_width : Int) (q : ℚ)
    (hwf : parts.wf q) :
    ∃ line, render_line parts term_width = .ok line
      ∧ (visible_width line : Int)
        = parts.fixed_cols + clamp_bar_width term_width parts.fixed_len := by
  obtain ⟨hq, hq0, hq1, hp0, hp1, ha, hb, hs, he⟩ := hwf
  obtain ⟨h10, h50⟩ := clamp_bar_width_range term_width parts.fixed_len
  obtain ⟨_, hf0, hf1⟩ := make_progress_bar_ok q (clamp_bar_width term_width parts.fixed_len)
    hq0 hq1 (by omega) (by omega)
  refine ⟨_, render_line_ok parts term_width q hq hq0 hq1, ?_⟩
  rw [status_line_visible _ _ _ _ _ _ _ hp0 hp1 hf0 hf1 (ascii_plain_plain _ ha)
    (ascii_plain_plain _ hb) (ascii_plain_plain _ hs) he]
  unfold LineParts.fixed_cols LineParts.fixed_len fixed_len
  rw [string_bytes_ascii _ ha, string_bytes_ascii _ hb, string_bytes_ascii _ hs]
  ring

/-- The values of a download pass with a progress in `[0,1]` are what the
rendering code expects. -/
theorem download_parts_wf (ti : Option TorrentInfo) (status : TorrentStatus) (p : ℚ)
    (parts : LineParts) (hp : status.progress = Flt.fin p) (hp0 : 0 ≤ p) (hp1 : p ≤ 1)
    (h : download_parts ti status = .ok parts) : parts.wf p := by
  obtain ⟨d, _, hc, hpr, h3, h4, h5, h6⟩ := download_parts_fields ti status parts h
  obtain ⟨hc2, hc0, hc1⟩ := percent_ok p hp0 hp1
  rw [hp, hc2] at hc
  have he := Except.ok.inj hc
  refine ⟨by rw [hpr, hp], hp0, hp1, by rw [← he]; exact hc0, by rw [← he]; exact hc1,
    ?_, ?_, ?_, ?_⟩
  · rw [h3]; exact format_size_ascii _ _
  · rw [h4]; exact format_size_ascii _ _
  · rw [h5]; exact speed_ascii _
  · rw [h6]; exact download_eta_plain _ _ _

/-- The values of a seeding pass with non-negative counts: the progress is a
value in `[0,1]` (the `NaN` of `0 / 0` does not get past the conversion of the
percentage). -/
theorem seeding_parts_wf (target_upload : Int) (status : TorrentStatus) (parts : LineParts)
    (hu : 0 ≤ status.total_upload) (ht : 0 ≤ target_upload)
    (h : seeding_parts target_upload status = .ok parts) : ∃ r, parts.wf r := by
  obtain ⟨hc, hpr, h3, h4, h5, h6⟩ := seeding_parts_fields target_upload status parts h
  by_cases hz : target_upload = 0 ∧ status.total_upload = 0
  · rw [hz.1, hz.2, seeding_progress_nan] at hc
    cases hc
  · obtain ⟨r, hr, hr0, hr1⟩ := seeding_progress_ok status.total_upload target_upload hu ht
      (by omega)
    obtain ⟨hc2, hc0, hc1⟩ := percent_ok r hr0 hr1
    rw [hr, hc2] at hc
    have he := Except.ok.inj hc
    refine ⟨r, by rw [hpr, hr], hr0, hr1, by rw [← he]; exact hc0, by rw [← he]; exact hc1,
      ?_, ?_, ?_, ?_⟩
    · rw [h3]; exact format_size_ascii _ _
    · rw [h4]; exact format_size_ascii _ _
    · rw [h5]; exact speed_ascii _
    · rw [h6]; exact seeding_eta_plain _ _ _

/-- When the line fits: the arithmetic of the two clamping `if`s. -/
theorem fits_iff (parts : LineParts) (term_width vis : Int)
    (h : vis = parts.fixed_cols + clamp_bar_width term_width parts.fixed_len) :
    (vis ≤ term_width ↔ parts.fixed_cols + 10 ≤ term_width)
      ∧ (parts.fixed_len + 12 ≤ term_width → vis ≤ term_width - 2) := by
  have hge : (parts.eta_str.length : Int) ≤ parts.eta_str.utf8ByteSize := by
    exact_mod_cast string_bytes_ge parts.eta_str
  subst h
  unfold LineParts.fixed_cols clamp_bar_width
  simp only
  generalize parts.fixed_len = fl at *
  generalize (parts.eta_str.utf8ByteSize : Int) = eb at *
  generalize (parts.eta_str.length : Int) = el at *
  constructor
  · split <;> split <;> constructor <;> intro _ <;> omega
  · intro _
    split <;> split <;> omega

/-- Counterexample to C8: on a 20-column terminal the line of a download pass
takes 51 columns: the bar keeps its minimum of 10 cells. -/
theorem narrow_terminal_overflows :
    download_render (some gib_info) status_half 20
        = .ok ("\r 50% [\x1b[32m#####|\x1b[90m    \x1b[0m] "
            ++ "0.5 GB/1.0 GB 1.0 MB/s eta 8m 32s\x1b[K")
      ∧ visible_width ("\r 50% [\x1b[32m#####|\x1b[90m    \x1b[0m] "
            ++ "0.5 GB/1.0 GB 1.0 MB/s eta 8m 32s\x1b[K") = 51
      ∧ (download_parts (some gib_info) status_half).map LineParts.fixed_len = .ok 41
      ∧ clamp_bar_width 20 41 = 10 := by
  decide!

/-- The width of the line of a pass whose values are those the rendering code
expects. -/
theorem line_width_of_wf (parts : LineParts) (term_width : Int) (q : ℚ) (hwf : parts.wf q) :
    ∃ line, render_line parts term_width = .ok line
      ∧ (visible_width line : Int)
        = parts.fixed_cols + clamp_bar_width term_width parts.fixed_len
      ∧ ((visible_width line : Int) ≤ term_width ↔ parts.fixed_cols + 10 ≤ term_width)
      ∧ (parts.fixed_len + 12 ≤ term_width → (visible_width line : Int) ≤ term_width - 2) := by
  obtain ⟨line, hline, hvis⟩ := render_line_width parts term_width q hwf
  exact ⟨line, hline, hvis, (fits_iff _ _ _ hvis).1, (fits_iff _ _ _ hvis).2⟩

/-- A total size of `2^63 - 2^38` at progress 1.0: the `float` product is `2^63`,
which `std::int64_t` cannot hold, and the conversion of line 440 is undefined. -/
theorem download_parts_overflow :
    download_parts (some { name := "x", total_size := 9223371761976868864, num_files := 1 })
      status_done = .error Fault.float_to_int := by
  decide!

/-- C8, amended: a rendered status line takes `fixed_cols + bar_width` columns,
where `bar_width = clamp(terminal_width - fixed_len - 2, 10, 50)` and
`fixed_cols` is the width of the text outside the bar (`fixed_len`, less 2 when
the ETA is the three-byte infinity symbol).  It fits the terminal exactly when
`terminal_width ≥ fixed_cols + 10`; when `terminal_width ≥ fixed_len + 12` it
takes at most `terminal_width - 2` columns.  On a narrower terminal the bar
keeps 10 cells and the line is wider than the terminal.  A line is rendered for
every progress in `[0,1]` and total size up to `2^63 - 2^38 - 1` (beyond, the
`float` of the size is `2^63` and line 440 overflows at progress 1.0), and
whenever a line is rendered it has this width. -/
theorem status_line_width (ti : Option TorrentInfo) (status : TorrentStatus) (p : ℚ)
    (term_width target_upload : Int)
    (hp : status.progress = Flt.fin p) (hp0 : 0 ≤ p) (hp1 : p ≤ 1)
    (hs0 : 0 ≤ total_size_of ti) (hs1 : total_size_of ti ≤ 9223371761976868863)
    (hu : 0 ≤ status.total_upload) (ht : 0 ≤ target_upload)
    (hpos : 0 < target_upload ∨ 0 < status.total_upload) :
    (∃ parts line, download_parts ti status = .ok parts
        ∧ download_render ti status term_width = .ok line
        ∧ (visible_width line : Int)
          = parts.fixed_cols + clamp_bar_width term_width parts.fixed_len
        ∧ ((visible_width line : Int) ≤ term_width ↔ parts.fixed_cols + 10 ≤ term_width)
        ∧ (parts.fixed_len + 12 ≤ term_width → (visible_width line : Int) ≤ term_width - 2))
      ∧ (∃ parts line, seeding_parts target_upload status = .ok parts
        ∧ seeding_render target_upload status term_width = .ok line
        ∧ (visible_width line : Int)
          = parts.fixed_cols + clamp_bar_width term_width parts.fixed_len
        ∧ ((visible_width line : Int) ≤ term_width ↔ parts.fixed_cols + 10 ≤ term_width)
        ∧ (parts.fixed_len + 12 ≤ term_width → (visible_width line : Int) ≤ term_width - 2))
      ∧ (∀ total : Option TorrentInfo, ∀ parts, download_parts total status = .ok parts →
          ∃ line, download_render total status term_width = .ok line
            ∧ (visible_width line : Int)
              = parts.fixed_cols + clamp_bar_width term_width parts.fixed_len
            ∧ ((visible_width line : Int) ≤ term_width ↔ parts.fixed_cols + 10 ≤ term_width)
            ∧ (parts.fixed_len + 12 ≤ term_width →
                (visible_width line : Int) ≤ term_width - 2))
      ∧ (∀ target : Int, 0 ≤ target → ∀ parts, seeding_parts target status = .ok parts →
          ∃ line, seeding_render target status term_width = .ok line
            ∧ (visible_width line : Int)
              = parts.fixed_cols + clamp_bar_width term_width parts.fixed_len
            ∧ ((visible_width line : Int) ≤ term_width ↔ parts.fixed_cols + 10 ≤ term_width)
            ∧ (parts.fixed_len + 12 ≤ term_width →
                (visible_width line : Int) ≤ term_width - 2)) := by
  have hdl : ∀ total : Option TorrentInfo, ∀ parts, download_parts total status = .ok parts →
      ∃ line, download_render total status term_width = .ok line
        ∧ (visible_width line : Int)
          = parts.fixed_cols + clamp_bar_width term_width parts.fixed_len
        ∧ ((visible_width line : Int) ≤ term_width ↔ parts.fixed_cols + 10 ≤ term_width)
        ∧ (parts.fixed_len + 12 ≤ term_width →
            (visible_width line : Int) ≤ term_width - 2) := by
    intro total parts hparts
    obtain ⟨line, hline, hw⟩ := line_width_of_wf parts term_width p
      (download_parts_wf total status p parts hp hp0 hp1 hparts)
    refine ⟨line, ?_, hw⟩
    unfold download_render
    rw [hparts]
    exact hline
  have hsd : ∀ target : Int, 0 ≤ target → ∀ parts, seeding_parts target status = .ok parts →
      ∃ line, seeding_render target status term_width = .ok line
        ∧ (visible_width line : Int)
          = parts.fixed_cols + clamp_bar_width term_width parts.fixed_len
        ∧ ((visible_width line : Int) ≤ term_width ↔ parts.fixed_cols + 10 ≤ term_width)
        ∧ (parts.fixed_len + 12 ≤ term_width →
            (visible_width line : Int) ≤ term_width - 2) := by
    intro target htg parts hparts
    obtain ⟨r, hwf⟩ := seeding_parts_wf target status parts hu htg hparts
    obtain ⟨line, hline, hw⟩ := line_width_of_wf parts term_width r hwf
    refine ⟨line, ?_, hw⟩
    unfold seeding_render
    rw [hparts]
    exact hline
  refine ⟨?_, ?_, hdl, hsd⟩
  · obtain ⟨parts, hparts⟩ := download_parts_exists ti status p hp hp0 hp1 hs0 hs1
    obtain ⟨line, hline, hw⟩ := hdl ti parts hparts
    exact ⟨parts, line, hparts, hline, hw⟩
  · obtain ⟨parts, hparts⟩ := seeding_parts_exists target_upload status hu ht hpos
    obtain ⟨line, hline, hw⟩ := hsd target_upload ht parts hparts
    exact ⟨parts, line, hparts, hline, hw⟩

/-- Witness of C8: the download line and the seeding line on an 80-column
terminal take 78 columns. -/
theorem status_line_width_witness :
    (∃ parts line, download_parts (some gib_info) status_half = .ok parts
        ∧ download_render (some gib_info) status_half 80 = .ok line
        ∧ (visible_width line : Int) = parts.fixed_cols + clamp_bar_width 80 parts.fixed_len
        ∧ ((visible_width line : Int) ≤ 80 ↔ parts.fixed_cols + 10 ≤ 80)
        ∧ (parts.fixed_len + 12 ≤ 80 → (visible_width line : Int) ≤ 80 - 2))
      ∧ (download_render (some gib_info) status_half 80).map visible_width = .ok 78
      ∧ (seeding_render 2097152 status_half 80).map visible_width = .ok 78 :=
  ⟨(status_line_width (some gib_info) status_half (1 / 2) 80 2097152 rfl (by norm_num)
    (by norm_num) (by decide) (by decide) (by decide) (by decide) (Or.inl (by decide))).1,
    by decide!, by decide!⟩

/-- The hours, minutes and seconds `format_time` computes with the C++ operators
`/` and `%` are, for a non-negative argument, the quotients and remainders of
Euclidean division. -/
theorem hms_nonneg (seconds : Int) (h0 : 0 ≤ seconds) :
    seconds.tdiv 3600 = seconds / 3600
      ∧ (seconds.tmod 3600).tdiv 60 = seconds % 3600 / 60
      ∧ seconds.tmod 60 = seconds % 60 := by
  have h1 : seconds.tmod 3600 = seconds % 3600 := Int.tmod_eq_emod h0 (by decide)
  have h2 : 0 ≤ seconds % 3600 := Int.emod_nonneg _ (by decide)
  refine ⟨Int.tdiv_eq_ediv h0 (by decide), ?_, Int.tmod_eq_emod h0 (by decide)⟩
  rw [h1]
  exact Int.tdiv_eq_ediv h2 (by decide)

/-- C11 (`format_time`): for every `seconds` (in particular every 32-bit `int`),
`format_time` returns the infinity symbol if `seconds < 0` or `seconds > 365 * 86400`; otherwise, with
`h = seconds / 3600`, `m = (seconds mod 3600) / 60` and `s = seconds mod 60`, it
returns `<h>h <m>m <s>s` when `h > 0`, `<m>m <s>s` when `h = 0` and `m > 0`, and
`<s>s` when `h = 0` and `m = 0`, where `h * 3600 + m * 60 + s = seconds` and
`m, s < 60`; this text is never the infinity symbol. -/
theorem format_time_spec (seconds : Int) :
    (seconds < 0 ∨ 365 * 86400 < seconds → format_time seconds = "∞")
      ∧ (0 ≤ seconds ∧ seconds ≤ 365 * 86400 →
          (0 < seconds / 3600 →
            format_time seconds
              = toString (seconds / 3600) ++ "h " ++ toString (seconds % 3600 / 60) ++ "m "
                ++ toString (seconds % 60) ++ "s")
          ∧ (seconds / 3600 = 0 ∧ 0 < seconds % 3600 / 60 →
            format_time seconds
              = toString (seconds % 3600 / 60) ++ "m " ++ toString (seconds % 60) ++ "s")
          ∧ (seconds / 3600 = 0 ∧ seconds % 3600 / 60 = 0 →
            format_time seconds = toString (seconds % 60) ++ "s")
          ∧ seconds / 3600 * 3600 + seconds % 3600 / 60 * 60 + seconds % 60 = seconds
          ∧ 0 ≤ seconds / 3600
          ∧ 0 ≤ seconds % 3600 / 60 ∧ seconds % 3600 / 60 < 60
          ∧ 0 ≤ seconds % 60 ∧ seconds % 60 < 60
          ∧ format_time seconds ≠ "∞") := by
  constructor
  · intro h
    exact format_time_infinite seconds (by omega)
  · rintro ⟨h0, h1⟩
    obtain ⟨e1, e2, e3⟩ := hms_nonneg seconds h0
    have hc : ¬ (seconds < 0 ∨ seconds > 86400 * 365) := by omega
    have hfmt : format_time seconds
        = if seconds / 3600 > 0 then
            toString (seconds / 3600) ++ "h " ++ toString (seconds % 3600 / 60) ++ "m "
              ++ toString (seconds % 60) ++ "s"
          else if seconds % 3600 / 60 > 0 then
            toString (seconds % 3600 / 60) ++ "m " ++ toString (seconds % 60) ++ "s"
          else toString (seconds % 60) ++ "s" := by
      unfold format_time
      simp only [hc, if_false, e1, e2, e3]
    refine ⟨?_, ?_, ?_, by omega, by omega, by omega, by omega, by omega, by omega,
      format_time_ne_infinity seconds h0 (by omega)⟩
    · intro hh
      rw [hfmt, if_pos hh]
    · rintro ⟨hh, hm⟩
      rw [hfmt, if_neg (by omega), if_pos hm]
    · rintro ⟨hh, hm⟩
      rw [hfmt, if_neg (by omega), if_neg (by omega)]

/-- Witness of C11: 3725 seconds are `1h 2m 5s`; the other cases at 125, 59, 0,
one year, one second more than a year and a negative argument. -/
theorem format_time_spec_witness :
    format_time 3725
        = toString ((3725 : Int) / 3600) ++ "h " ++ toString ((3725 : Int) % 3600 / 60) ++ "m "
          ++ toString ((3725 : Int) % 60) ++ "s"
      ∧ format_time 3725 = "1h 2m 5s"
      ∧ format_time 125 = "2m 5s"
      ∧ format_time 59 = "59s"
      ∧ format_time 0 = "0s"
      ∧ format_time 3600 = "1h 0m 0s"
      ∧ format_time 31536000 = "8760h 0m 0s"
      ∧ format_time 31536001 = "∞"
      ∧ format_time (-1) = "∞" :=
  ⟨((format_time_spec 3725).2 ⟨by decide, by decide⟩).1 (by decide),
    by decide, by decide, by decide, by decide, by decide, by decide, by decide, by decide⟩

end Curlent
